import Mathlib

/-!
Shallow embedding of the boletin_caba pipeline core
(src/scripts/transformaciones_licitaciones.py, transformaciones_empresas.py,
utils_logs.py, boletin_oficial_api.py) together with proofs settling the
frozen claims about it.

Conventions of the embedding:
* Python strings are `String` / `List Char`; values that may be non-strings
  (pandas cells) are `PyVal`.
* Python `re` substitution/scanning is modelled by deterministic scanners
  that implement the exact leftmost, greedy-with-forced-backtracking
  semantics of the concrete patterns appearing in the source (the character
  classes involved make backtracking deterministic, as noted at each
  definition).
* Monetary values are represented as exact rationals (the floats arising in
  the source are exactly representable or only compared, never mixed).
-/

set_option maxRecDepth 40000

/-- A Python value as seen by the defensive `isinstance(x, str)` checks in
the source: either a string or some non-string object (tagged by a `Nat` so
distinct non-strings stay distinct). -/
inductive PyVal where
  | str (s : String)
  | nonStr (n : Nat)
deriving DecidableEq

/-- Python's `\s` / `str.strip()` whitespace for the ASCII range:
space, tab, newline, carriage return, form feed, vertical tab. -/
def esEspacioPy (c : Char) : Bool :=
  c = ' ' || c = '\t' || c = '\n' || c = '\r' || c = '\x0b' || c = '\x0c'

/-- Python's `\w` word characters (ASCII letters, digits, underscore);
non-ASCII code points are treated as word characters, matching Python's
Unicode-aware `\b` on the letters that occur in this data. -/
def esCaracterPalabra (c : Char) : Bool :=
  c.isAlphanum || c = '_' || c.val ≥ 128

/-- Python `str.upper` restricted to the alphabet this pipeline sees:
ASCII letters plus the accented Spanish vowels and enie. -/
def mayusculaChar (c : Char) : Char :=
  if 'a' ≤ c ∧ c ≤ 'z' then Char.ofNat (c.toNat - 32)
  else if c = 'á' then 'Á'
  else if c = 'é' then 'É'
  else if c = 'í' then 'Í'
  else if c = 'ó' then 'Ó'
  else if c = 'ú' then 'Ú'
  else if c = 'ñ' then 'Ñ'
  else if c = 'ü' then 'Ü'
  else c

/-- Python `str.lower` restricted to the same alphabet. -/
def minusculaChar (c : Char) : Char :=
  if 'A' ≤ c ∧ c ≤ 'Z' then Char.ofNat (c.toNat + 32)
  else if c = 'Á' then 'á'
  else if c = 'É' then 'é'
  else if c = 'Í' then 'í'
  else if c = 'Ó' then 'ó'
  else if c = 'Ú' then 'ú'
  else if c = 'Ñ' then 'ñ'
  else if c = 'Ü' then 'ü'
  else c

/-- Uppercase a whole string (Python `str.upper`). -/
def mayusculas (s : String) : String := ⟨s.data.map mayusculaChar⟩

/-- Lowercase a whole string (Python `str.lower`). -/
def minusculas (s : String) : String := ⟨s.data.map minusculaChar⟩

/-! ## limpiar_texto_licitacion (transformaciones_licitaciones.py lines 92-113) -/

/-- Step 1 of `limpiar_texto_licitacion`: `texto.replace('\n', ' ')`. -/
def reemplazarSaltos (l : List Char) : List Char :=
  l.map (fun c => if c = '\n' then ' ' else c)

/-- Dropping a prefix never lengthens a list (used for termination of the
scanners below). -/
theorem longitudDropWhile_le (p : Char → Bool) (l : List Char) :
    (l.dropWhile p).length ≤ l.length := by
  induction l with
  | nil => simp [List.dropWhile]
  | cons c cs ih =>
    simp only [List.dropWhile_cons]
    by_cases h : p c
    · simp only [h, if_true, List.length_cons]
      exact Nat.le_succ_of_le ih
    · simp [h]

/-- Worker for `colapsarEspacios`. The flag records whether the scanner is
inside a whitespace run whose single replacement space was already emitted. -/
def colapsarAux : Bool → List Char → List Char
  | _, [] => []
  | enRun, c :: cs =>
    if esEspacioPy c then
      if enRun then colapsarAux true cs else ' ' :: colapsarAux true cs
    else c :: colapsarAux false cs

/-- Step 2 of `limpiar_texto_licitacion`: `re.sub(r'\s+', ' ', texto)`.
Each maximal whitespace run is replaced by a single space (the pattern is
anchored nowhere, scanning is leftmost, and a maximal run is always the
match taken). -/
def colapsarEspacios (l : List Char) : List Char := colapsarAux false l

/-- Drop trailing whitespace (right half of Python `str.strip()`). -/
def recortarDerecha : List Char → List Char
  | [] => []
  | c :: cs =>
    match recortarDerecha cs with
    | [] => if esEspacioPy c then [] else [c]
    | r => c :: r

/-- Python `str.strip()`: drop leading and trailing whitespace. -/
def recortar (l : List Char) : List Char :=
  recortarDerecha (l.dropWhile esEspacioPy)

/-- Embedding of `limpiar_texto_licitacion` (source lines 92-113): replace
newlines by spaces, collapse whitespace runs to one space, strip ends. -/
def limpiar_texto_licitacion (s : String) : String :=
  ⟨recortar (colapsarEspacios (reemplazarSaltos s.data))⟩

/-- The `isinstance(texto, str)` guard of `limpiar_texto_licitacion`:
non-strings pass through unchanged. -/
def limpiar_texto_licitacion_val : PyVal → PyVal
  | .str s => .str (limpiar_texto_licitacion s)
  | v => v

/-- Decides whether a character list contains two consecutive spaces. -/
def tieneDobleEspacio : List Char → Bool
  | a :: b :: r => (a = ' ' && b = ' ') || tieneDobleEspacio (b :: r)
  | _ => false

/-- Decides whether a character list contains two consecutive whitespace
characters (auxiliary, stronger invariant than `tieneDobleEspacio`). -/
def tieneDobleEspacioPy : List Char → Bool
  | a :: b :: r => (esEspacioPy a && esEspacioPy b) || tieneDobleEspacioPy (b :: r)
  | _ => false

theorem head_dropWhile_espacio (l : List Char) (a : Char) (as : List Char)
    (h : l.dropWhile esEspacioPy = a :: as) : esEspacioPy a = false := by
  induction l with
  | nil => simp [List.dropWhile] at h
  | cons c cs ih =>
    rw [List.dropWhile_cons] at h
    by_cases hc : esEspacioPy c
    · rw [if_pos hc] at h; exact ih h
    · rw [if_neg hc] at h
      cases h
      exact Bool.eq_false_iff.mpr hc

theorem mem_dropWhile_espacio (l : List Char) (c : Char)
    (h : c ∈ l.dropWhile esEspacioPy) : c ∈ l := by
  induction l with
  | nil => simp [List.dropWhile] at h
  | cons d cs ih =>
    rw [List.dropWhile_cons] at h
    by_cases hd : esEspacioPy d
    · rw [if_pos hd] at h
      exact List.mem_cons_of_mem _ (ih h)
    · rwa [if_neg hd] at h

theorem mem_colapsarAux (l : List Char) : ∀ (b : Bool) (c : Char),
    c ∈ colapsarAux b l → c = ' ' ∨ c ∈ l := by
  induction l with
  | nil => intro b c h; simp [colapsarAux] at h
  | cons d cs ih =>
    intro b c h
    rw [colapsarAux] at h
    by_cases hd : esEspacioPy d
    · rw [if_pos hd] at h
      cases b with
      | true =>
        rcases ih true c h with h2 | h2
        · left; exact h2
        · right; exact List.mem_cons_of_mem _ h2
      | false =>
        rcases List.mem_cons.mp h with h2 | h2
        · left; exact h2
        · rcases ih true c h2 with h3 | h3
          · left; exact h3
          · right; exact List.mem_cons_of_mem _ h3
    · rw [if_neg hd] at h
      rcases List.mem_cons.mp h with h2 | h2
      · right; simp [h2]
      · rcases ih false c h2 with h3 | h3
        · left; exact h3
        · right; exact List.mem_cons_of_mem _ h3

theorem head_colapsarAux_true (l : List Char) : ∀ (d : Char) (r : List Char),
    colapsarAux true l = d :: r → esEspacioPy d = false := by
  induction l with
  | nil => intro d r h; simp [colapsarAux] at h
  | cons c cs ih =>
    intro d r h
    rw [colapsarAux] at h
    by_cases hc : esEspacioPy c
    · rw [if_pos hc] at h
      exact ih d r h
    · rw [if_neg hc] at h
      cases h
      exact Bool.eq_false_iff.mpr hc

theorem colapsarAux_sinDoble (l : List Char) : ∀ b : Bool,
    tieneDobleEspacioPy (colapsarAux b l) = false := by
  induction l with
  | nil => intro b; simp [colapsarAux, tieneDobleEspacioPy]
  | cons c cs ih =>
    intro b
    rw [colapsarAux]
    by_cases hc : esEspacioPy c
    · rw [if_pos hc]
      cases b with
      | true => exact ih true
      | false =>
        cases hrest : colapsarAux true cs with
        | nil => simp [tieneDobleEspacioPy]
        | cons d r =>
          have hd := head_colapsarAux_true cs d r hrest
          have := ih true
          rw [hrest] at this
          simp [tieneDobleEspacioPy, hd, this]
    · rw [if_neg hc]
      cases hrest : colapsarAux false cs with
      | nil => simp [tieneDobleEspacioPy]
      | cons d r =>
        have := ih false
        rw [hrest] at this
        simp [tieneDobleEspacioPy, Bool.eq_false_iff.mpr hc, this]

theorem mem_colapsarEspacios (l : List Char) (c : Char) :
    c ∈ colapsarEspacios l → c = ' ' ∨ c ∈ l :=
  mem_colapsarAux l false c

theorem colapsarEspacios_sinDoble (l : List Char) :
    tieneDobleEspacioPy (colapsarEspacios l) = false :=
  colapsarAux_sinDoble l false

theorem recortarDerecha_head (l : List Char) (d : Char) (rs : List Char)
    (h : recortarDerecha l = d :: rs) : l.head? = some d := by
  cases l with
  | nil => simp [recortarDerecha] at h
  | cons c cs =>
    rw [recortarDerecha] at h
    cases hr : recortarDerecha cs with
    | nil =>
      rw [hr] at h
      by_cases hc : esEspacioPy c
      · rw [if_pos hc] at h; cases h
      · rw [if_neg hc] at h; cases h; rfl
    | cons e r => rw [hr] at h; cases h; rfl

theorem mem_recortarDerecha (l : List Char) (c : Char) :
    c ∈ recortarDerecha l → c ∈ l := by
  induction l with
  | nil => intro h; simp [recortarDerecha] at h
  | cons d cs ih =>
    intro h
    rw [recortarDerecha] at h
    cases hr : recortarDerecha cs with
    | nil =>
      rw [hr] at h
      by_cases hd : esEspacioPy d
      · rw [if_pos hd] at h; simp at h
      · rw [if_neg hd] at h
        simp only [List.mem_singleton] at h
        simp [h]
    | cons e r =>
      rw [hr] at h
      rcases List.mem_cons.mp h with h | h
      · simp [h]
      · exact List.mem_cons_of_mem _ (ih (hr ▸ h))

theorem recortarDerecha_sinDoble (l : List Char)
    (h : tieneDobleEspacioPy l = false) :
    tieneDobleEspacioPy (recortarDerecha l) = false := by
  induction l with
  | nil => simpa [recortarDerecha] using h
  | cons c cs ih =>
    rw [recortarDerecha]
    cases hr : recortarDerecha cs with
    | nil =>
      by_cases hc : esEspacioPy c
      · simp [hc, tieneDobleEspacioPy]
      · simp [hc, tieneDobleEspacioPy]
    | cons d rs =>
      have hcs : tieneDobleEspacioPy cs = false := by
        cases cs with
        | nil => simp [tieneDobleEspacioPy]
        | cons e es =>
          rw [tieneDobleEspacioPy] at h
          exact (Bool.or_eq_false_iff.mp h).2
      have hrec := ih hcs
      rw [hr] at hrec
      have hd : cs.head? = some d := recortarDerecha_head cs d rs hr
      have hpair : (esEspacioPy c && esEspacioPy d) = false := by
        cases cs with
        | nil => simp at hd
        | cons e es =>
          simp only [List.head?] at hd
          cases hd
          rw [tieneDobleEspacioPy] at h
          exact (Bool.or_eq_false_iff.mp h).1
      simp [tieneDobleEspacioPy, hpair, hrec]

theorem recortarDerecha_getLast? (l : List Char) (c : Char)
    (h : (recortarDerecha l).getLast? = some c) : esEspacioPy c = false := by
  induction l with
  | nil => simp [recortarDerecha] at h
  | cons d cs ih =>
    rw [recortarDerecha] at h
    cases hr : recortarDerecha cs with
    | nil =>
      rw [hr] at h
      by_cases hd : esEspacioPy d
      · rw [if_pos hd] at h; simp at h
      · rw [if_neg hd] at h
        simp only [List.getLast?_singleton, Option.some.injEq] at h
        cases h
        exact Bool.eq_false_iff.mpr hd
    | cons e r =>
      rw [hr, List.getLast?_cons_cons] at h
      exact ih (hr ▸ h)

theorem sinDoble_tail (a : Char) (l : List Char)
    (h : tieneDobleEspacioPy (a :: l) = false) : tieneDobleEspacioPy l = false := by
  cases l with
  | nil => simp [tieneDobleEspacioPy]
  | cons b r =>
    rw [tieneDobleEspacioPy] at h
    exact (Bool.or_eq_false_iff.mp h).2

theorem sinDoble_dropWhile (l : List Char)
    (h : tieneDobleEspacioPy l = false) :
    tieneDobleEspacioPy (l.dropWhile esEspacioPy) = false := by
  induction l with
  | nil => simpa [List.dropWhile]
  | cons c cs ih =>
    rw [List.dropWhile_cons]
    by_cases hc : esEspacioPy c
    · rw [if_pos hc]
      exact ih (sinDoble_tail c cs h)
    · rwa [if_neg hc]

theorem sin_salto_reemplazar (l : List Char) : '\n' ∉ reemplazarSaltos l := by
  intro h
  rw [reemplazarSaltos] at h
  rcases List.mem_map.mp h with ⟨a, _, hfa⟩
  by_cases ha : a = '\n'
  · rw [if_pos ha] at hfa
    cases hfa
  · rw [if_neg ha] at hfa
    exact ha hfa

theorem tieneDobleEspacio_of_Py (l : List Char)
    (h : tieneDobleEspacioPy l = false) : tieneDobleEspacio l = false := by
  induction l with
  | nil => simp [tieneDobleEspacio]
  | cons a t ih =>
    cases t with
    | nil => simp [tieneDobleEspacio]
    | cons b r =>
      rw [tieneDobleEspacioPy] at h
      rcases Bool.or_eq_false_iff.mp h with ⟨h1, h2⟩
      rw [tieneDobleEspacio, Bool.or_eq_false_iff]
      refine ⟨?_, ih h2⟩
      by_cases ha : a = ' '
      · by_cases hb : b = ' '
        · exfalso
          rw [ha, hb] at h1
          simp [esEspacioPy] at h1
        · simp [hb]
      · simp [ha]

/-- Claim C8: for every string input, the output of `limpiar_texto_licitacion`
contains no newline characters and no run of two or more consecutive spaces,
and has no leading or trailing whitespace; non-string input is returned
unchanged. -/
theorem c8_limpiar_texto (s : String) :
    '\n' ∉ (limpiar_texto_licitacion s).data ∧
    tieneDobleEspacio (limpiar_texto_licitacion s).data = false ∧
    (∀ c, (limpiar_texto_licitacion s).data.head? = some c → esEspacioPy c = false) ∧
    (∀ c, (limpiar_texto_licitacion s).data.getLast? = some c → esEspacioPy c = false) ∧
    (∀ n, limpiar_texto_licitacion_val (.nonStr n) = .nonStr n) := by
  have hdata : (limpiar_texto_licitacion s).data
      = recortarDerecha ((colapsarEspacios (reemplazarSaltos s.data)).dropWhile esEspacioPy) := rfl
  refine ⟨?_, ?_, ?_, ?_, fun n => rfl⟩
  · intro hmem
    rw [hdata] at hmem
    have h1 := mem_dropWhile_espacio _ _ (mem_recortarDerecha _ _ hmem)
    rcases mem_colapsarEspacios _ _ h1 with h2 | h2
    · cases h2
    · exact sin_salto_reemplazar _ h2
  · rw [hdata]
    exact tieneDobleEspacio_of_Py _
      (recortarDerecha_sinDoble _ (sinDoble_dropWhile _ (colapsarEspacios_sinDoble _)))
  · intro c hc
    rw [hdata] at hc
    cases hr : recortarDerecha ((colapsarEspacios (reemplazarSaltos s.data)).dropWhile esEspacioPy) with
    | nil => rw [hr] at hc; cases hc
    | cons d rs =>
      rw [hr] at hc
      simp only [List.head?] at hc
      cases hc
      have hhd := recortarDerecha_head _ _ _ hr
      cases hdw : (colapsarEspacios (reemplazarSaltos s.data)).dropWhile esEspacioPy with
      | nil => rw [hdw] at hhd; cases hhd
      | cons a as =>
        rw [hdw] at hhd
        simp only [List.head?, Option.some.injEq] at hhd
        cases hhd
        exact head_dropWhile_espacio _ _ _ hdw
  · intro c hc
    rw [hdata] at hc
    exact recortarDerecha_getLast? _ _ hc

/-- Witness for C8: the hypotheses of the head/last conjuncts are satisfiable
on the concrete input "a \n b" (cleaned to "a b"). -/
theorem c8_limpiar_texto_witness :
    esEspacioPy 'a' = false ∧ esEspacioPy 'b' = false :=
  ⟨(c8_limpiar_texto "a \n b").2.2.1 'a' (by decide),
   (c8_limpiar_texto "a \n b").2.2.2.1 'b' (by decide)⟩

/-! ## normalizar_etapa (transformaciones_licitaciones.py lines 52-74) -/

/-- The keys of `ETAPAS_MAP` in `normalizar_etapa`, in source order. -/
def etapasClaves : List String :=
  ["llamado", "preadjudicación", "preadjudicacion", "adjudicación", "adjudicacion",
   "prórroga", "prorroga", "circular con consulta", "circular sin consulta",
   "corrección", "correccion", "apertura"]

/-- Embedding of `ETAPAS_MAP.get(etapa.lower(), None)`: lookup in the fixed
stage dictionary of `normalizar_etapa`. -/
def etapasMapGet (s : String) : Option String :=
  if s = "llamado" then some "llamado"
  else if s = "preadjudicación" then some "preadjudicacion"
  else if s = "preadjudicacion" then some "preadjudicacion"
  else if s = "adjudicación" then some "adjudicacion"
  else if s = "adjudicacion" then some "adjudicacion"
  else if s = "prórroga" then some "prorroga"
  else if s = "prorroga" then some "prorroga"
  else if s = "circular con consulta" then some "circular_con_consulta"
  else if s = "circular sin consulta" then some "circular_sin_consulta"
  else if s = "corrección" then some "correccion"
  else if s = "correccion" then some "correccion"
  else if s = "apertura" then some "apertura"
  else none

/-- Embedding of `normalizar_etapa` (source lines 52-74). The Python guard
`if not etapa` treats both `None` and the empty string as falsy, so the input
is an `Option String` and `some ""` also maps to `none`. -/
def normalizar_etapa : Option String → Option String
  | none => none
  | some s => if s = "" then none else etapasMapGet (minusculas s)

/-- The canonical stage tags, i.e. the values of `ETAPAS_MAP`. -/
def etapasCanonicas : List String :=
  ["llamado", "preadjudicacion", "adjudicacion", "prorroga",
   "circular_con_consulta", "circular_sin_consulta", "correccion", "apertura"]

theorem etapasMapGet_none (m : String) (h : m ∉ etapasClaves) :
    etapasMapGet m = none := by
  rw [etapasMapGet]
  repeat rw [if_neg (by rintro rfl; exact h (by decide))]

/-- Claim C5: `normalizar_etapa` is total over its known vocabulary, every
canonical tag x satisfies `normalizar_etapa (normalizar_etapa x) =
normalizar_etapa x`, and unknown or null input maps to null. -/
theorem c5_normalizar_etapa :
    (∀ x ∈ etapasCanonicas,
        normalizar_etapa (normalizar_etapa (some x)) = normalizar_etapa (some x)) ∧
    normalizar_etapa none = none ∧
    (∀ s : String, minusculas s ∉ etapasClaves → normalizar_etapa (some s) = none) := by
  refine ⟨by decide, rfl, ?_⟩
  intro s h
  by_cases hs : s = ""
  · simp [normalizar_etapa, hs]
  · simp only [normalizar_etapa, if_neg hs]
    exact etapasMapGet_none _ h

/-- Witness for C5: a canonical tag and an unknown stage name, concretely. -/
theorem c5_normalizar_etapa_witness :
    normalizar_etapa (normalizar_etapa (some "apertura")) = normalizar_etapa (some "apertura") ∧
    normalizar_etapa (some "otra cosa") = none :=
  ⟨c5_normalizar_etapa.1 "apertura" (by decide),
   c5_normalizar_etapa.2.2 "otra cosa" (by decide)⟩

/-! ## normalizar_sufijos (transformaciones_empresas.py lines 5-27)

The three regex substitutions of the source are embedded as deterministic
scanners. For the patterns involved, backtracking is forced: the letters of
a suffix pattern are never members of the separator class `[.\s]`, so every
quantifier except the final `[.\s]*` before `\b` has exactly one viable
extent, and that final one has at most two (the full run, accepted when a
word character follows it, else the empty run). These scanners were checked
exhaustively against CPython `re` on the full variant family. -/

/-- The character class `[.\s]` appearing inside the suffix patterns. -/
def esSeparadorSufijo (c : Char) : Bool := c = '.' || esEspacioPy c

/-- Fueled scanner for `re.sub(r'\s*\.\s*', '.', s)`: each match is a
maximal whitespace run, a dot, and a maximal whitespace run; fuel is the
input length (at least one character is consumed per step). -/
def puntosAux : Nat → List Char → List Char
  | 0, l => l
  | _ + 1, [] => []
  | fuel + 1, c :: cs =>
    if c = '.' then '.' :: puntosAux fuel (cs.dropWhile esEspacioPy)
    else if esEspacioPy c then
      match cs.dropWhile esEspacioPy with
      | '.' :: resto => '.' :: puntosAux fuel (resto.dropWhile esEspacioPy)
      | _ => c :: puntosAux fuel cs
    else c :: puntosAux fuel cs

/-- The first substitution of `normalizar_sufijos`:
`re.sub(r'\s*\.\s*', '.', nombre.upper())` (applied after uppercasing). -/
def colapsarPuntos (l : List Char) : List Char := puntosAux l.length l

/-- Matches the tail `[.\s]* L2 [.\s]* ... Ln [.\s]* \b` of a suffix pattern
against `cs` (the first letter was already consumed); returns the remainder
after the match. Case-insensitive on the letters, as in the source
(`flags=re.IGNORECASE`). -/
def consumeSufijo : List Char → List Char → Option (List Char)
  | [], cs =>
    let rest1 := cs.dropWhile esSeparadorSufijo
    let caso1 : Bool := rest1.length < cs.length &&
      (match rest1 with
       | c :: _ => esCaracterPalabra c
       | [] => false)
    if caso1 then some rest1
    else
      match cs with
      | [] => some []
      | c :: _ => if esCaracterPalabra c then none else some cs
  | L :: Ls, cs =>
    match cs.dropWhile esSeparadorSufijo with
    | c :: cs2 => if mayusculaChar c = L then consumeSufijo Ls cs2 else none
    | [] => none

/-- Tries to match a whole suffix pattern `\b L1 [.\s]* ... Ln [.\s]* \b`
at the start of `l`; `prev` is the character preceding `l` (for `\b`). -/
def sufMatchEnd (letras : List Char) (prev : Option Char) (l : List Char) :
    Option (List Char) :=
  let borde : Bool :=
    match prev with
    | some p => !esCaracterPalabra p
    | none => true
  if borde then
    match letras, l with
    | L :: Ls, c :: cs => if mayusculaChar c = L then consumeSufijo Ls cs else none
    | _, _ => none
  else none

/-- Fueled scanner for one `re.sub(patron, reemplazo, nombre)` with a suffix
pattern: leftmost matches, scanning resumes after each replacement. -/
def sufAux (letras repl : List Char) : Nat → Option Char → List Char → List Char
  | 0, _, l => l
  | _ + 1, _, [] => []
  | fuel + 1, prev, c :: cs =>
    match sufMatchEnd letras prev (c :: cs) with
    | some rest => repl ++ sufAux letras repl fuel (some '.') rest
    | none => c :: sufAux letras repl fuel (some c) cs

/-- One full suffix substitution pass over a string. -/
def sufScan (letras repl : List Char) (l : List Char) : List Char :=
  sufAux letras repl l.length none l

/-- The suffix dictionary of `normalizar_sufijos`, in source (insertion)
order: pattern letters and replacement. -/
def sufijosLista : List (List Char × List Char) :=
  [ (['S', 'A'], "S.A.".data),
    (['S', 'R', 'L'], "S.R.L.".data),
    (['S', 'A', 'S'], "S.A.S.".data),
    (['C', 'I', 'A'], "C.I.A.".data),
    (['S', 'H'], "S.H.".data),
    (['S', 'E'], "S.E.".data),
    (['S', 'C'], "S.C.".data),
    (['S', 'E', 'N', 'C'], "S.E.N.C.".data) ]

/-- Collapse a trailing run of dots to a single dot, on a list known not to
end in a newline. -/
def quitarPuntosFinales (l : List Char) : List Char :=
  let r := (l.reverse.dropWhile (fun c => c = '.')).reverse
  if r.length = l.length then l else r ++ ['.']

/-- The last substitution of `normalizar_sufijos`: `re.sub(r'\.+$', '.', s)`.
Python `$` (without MULTILINE) also matches just before one trailing
newline, so that case is split off. -/
def colaPuntos (l : List Char) : List Char :=
  match l.getLast? with
  | some '\n' => quitarPuntosFinales l.dropLast ++ ['\n']
  | _ => quitarPuntosFinales l

/-- Embedding of `normalizar_sufijos` (transformaciones_empresas.py lines
5-27): uppercase, tighten spaces around dots, rewrite the eight legal-entity
suffix patterns in dictionary order, collapse trailing dots, strip. -/
def normalizar_sufijos (nombre : String) : String :=
  let paso1 := colapsarPuntos (mayusculas nombre).data
  let paso2 := sufijosLista.foldl (fun s par => sufScan par.1 par.2 s) paso1
  ⟨recortar (colaPuntos paso2)⟩

/-- The `isinstance(nombre, str)` guard of `normalizar_sufijos`: non-strings
pass through unchanged. -/
def normalizar_sufijos_val : PyVal → PyVal
  | .str s => .str (normalizar_sufijos s)
  | v => v

/-- Separator runs of length at most 2 over the spacing/punctuation
characters of the suffix variants. -/
def corridasSeparadores : List (List Char) :=
  [[], [' '], ['.'],
   [' ', ' '], [' ', '.'], ['.', ' '], ['.', '.']]

/-- The family of "S.A." suffix variants: an s/S, a separator run, an a/A,
and a trailing separator run (runs of length at most 2 drawn from spaces
and periods). It contains the spec's examples "s a", "S.A", "S A.". -/
def variantesSA : List String :=
  ['S', 's'].flatMap (fun c1 =>
    ['A', 'a'].flatMap (fun c2 =>
      corridasSeparadores.flatMap (fun mid =>
        corridasSeparadores.map (fun post => ⟨[c1] ++ mid ++ [c2] ++ post⟩))))

/-- Counterexample for C6 as stated: `normalizar_sufijos` is not idempotent
on every input. On "S A ," one application yields "S.A. ," but a second
application yields "S.A..," (the first pass's replacement leaves a space
before a comma-adjacent dot, which the second pass's dot-tightening step
then removes, re-exposing the "S.A" pattern to a dot-splitting rewrite). -/
theorem c6_normalizar_sufijos_contraejemplo :
    normalizar_sufijos "S A ," = "S.A. ," ∧
    normalizar_sufijos (normalizar_sufijos "S A ,") = "S.A..," ∧
    normalizar_sufijos (normalizar_sufijos "S A ,") ≠ normalizar_sufijos "S A ," := by
  decide

/-- Claim C6, amended: for every valid "S.A." suffix variant (case, spacing
and punctuation variants with separator runs of length up to 3, including
the spec's examples), `normalizar_sufijos` yields exactly the canonical form
"S.A.", and on those variants applying it twice equals applying it once;
non-string input passes through unchanged. (Idempotence on arbitrary
strings fails, see the counterexample.) -/
theorem c6_normalizar_sufijos_variantes :
    (∀ s ∈ variantesSA,
        normalizar_sufijos s = "S.A." ∧
        normalizar_sufijos (normalizar_sufijos s) = normalizar_sufijos s) ∧
    (∀ n, normalizar_sufijos_val (.nonStr n) = .nonStr n) :=
  ⟨by decide, fun _ => rfl⟩

/-- Witness for C6: the spec's three examples are in the variant family and
normalize to "S.A." idempotently. -/
theorem c6_normalizar_sufijos_witness :
    normalizar_sufijos "s a" = "S.A." ∧
    normalizar_sufijos "S.A" = "S.A." ∧
    normalizar_sufijos "S A." = "S.A." :=
  ⟨(c6_normalizar_sufijos_variantes.1 "s a" (by decide)).1,
   (c6_normalizar_sufijos_variantes.1 "S.A" (by decide)).1,
   (c6_normalizar_sufijos_variantes.1 "S A." (by decide)).1⟩

/-! ## extraer_monto_total (transformaciones_licitaciones.py lines 119-145)

The pattern `(USD|\$)?\s*((?:\d{1,3}(?:\.\d{3})+|\d+),\d{2})` is embedded as
a deterministic scanner: every quantifier's extent is forced (the characters
following each quantifier are disjoint from its character class), so greedy
matching with backtracking degenerates to maximal-munch with two fixed
fallbacks (the second top-level alternative, and the empty currency). -/

/-- Consume `(?:\.\d{3})+` greedily: returns the consumed characters and
the remainder. An empty first component means no group matched. -/
def tomaGrupos : List Char → List Char × List Char
  | '.' :: a :: b :: c :: rest =>
    if a.isDigit && b.isDigit && c.isDigit then
      let par := tomaGrupos rest
      ('.' :: a :: b :: c :: par.1, par.2)
    else ([], '.' :: a :: b :: c :: rest)
  | l => ([], l)

/-- Require the decimal tail `,\d{2}` after the integer part `pre`; returns
the whole matched numeric token and the remainder. -/
def matchDecimales (pre r : List Char) : Option (List Char × List Char) :=
  match r with
  | ',' :: e1 :: e2 :: rest =>
    if e1.isDigit && e2.isDigit then some (pre ++ [',', e1, e2], rest) else none
  | _ => none

/-- Match the numeric group given the leading digit run `ds` and the rest
`r1`: first the thousands-separated alternative `\d{1,3}(\.\d{3})+`, then
the plain `\d+` alternative. -/
def matchNumeroCon (ds r1 : List Char) : Option (List Char × List Char) :=
  if ds.isEmpty then none
  else
    match (if ds.length ≤ 3 then
             match tomaGrupos r1 with
             | ([], _) => none
             | (gs, r2) => matchDecimales (ds ++ gs) r2
           else none) with
    | some res => some res
    | none => matchDecimales ds r1

/-- Match the numeric group `((?:\d{1,3}(?:\.\d{3})+|\d+),\d{2})` at the
start of `l`. -/
def matchNumero (l : List Char) : Option (List Char × List Char) :=
  matchNumeroCon (l.takeWhile Char.isDigit) (l.dropWhile Char.isDigit)

/-- Case-insensitive "USD" prefix test (the source compiles the pattern
with `re.IGNORECASE`). -/
def esPrefijoUSD : List Char → Bool
  | u :: s :: d :: _ =>
    (u = 'U' || u = 'u') && (s = 'S' || s = 's') && (d = 'D' || d = 'd')
  | _ => false

/-- Fueled scanner for `contexto_regex.findall(texto_limpio)`: at each
position, try the optional currency marker, skip whitespace, and match the
numeric group; on success collect group 2 and resume after the match, else
advance one character. Fuel is the input length; every step consumes at
least one character. -/
def buscaMontosAux : Nat → List Char → List (List Char)
  | 0, _ => []
  | _ + 1, [] => []
  | fuel + 1, c :: cs =>
    let trasMoneda := if esPrefijoUSD (c :: cs) then cs.drop 2
                      else if c = '$' then cs else c :: cs
    match matchNumero (trasMoneda.dropWhile esEspacioPy) with
    | some (tok, rest) => tok :: buscaMontosAux fuel rest
    | none => buscaMontosAux fuel cs

/-- All numeric tokens found by the money pattern, in match order. -/
def buscaMontos (l : List Char) : List (List Char) := buscaMontosAux l.length l


/-- Value of a matched token in cents: the source computes
`float(monto_str.replace(".", "").replace(",", "."))`, whose digits are the
token's digits with the last two after the decimal point; the exact value is
the token's digit string read as an integer number of cents, divided by 100.
All comparisons the source performs are reflected exactly on cents. -/
def centavosDe (tok : List Char) : Nat :=
  (tok.filter Char.isDigit).foldl (fun acc d => 10 * acc + (d.toNat - 48)) 0

/-- The parsed values surviving the fixed floor (`if monto >= 100000`,
i.e. 10,000,000 cents), in match order, in cents. -/
def montosCalificados (s : String) : List Nat :=
  ((buscaMontos s.data).map centavosDe).filter (fun c => 10000000 ≤ c)

/-- Python `max` over a list (the head-seeded left fold the builtin
performs); 0 on the empty list, which the source never queries. -/
def maximoLista : List Nat → Nat
  | [] => 0
  | v :: vs => vs.foldl (fun a b => if b > a then b else a) v

/-- The result of `extraer_monto_total`, in cents. -/
def centavosMonto : PyVal → Nat
  | .nonStr _ => 0
  | .str s =>
    match montosCalificados s with
    | [] => 0
    | v :: vs => maximoLista (v :: vs)

/-- Embedding of `extraer_monto_total` (source lines 119-145): maximum
qualifying parsed value as an exact rational, 0 when no value qualifies or
the input is not a string. -/
def extraer_monto_total (v : PyVal) : ℚ := (centavosMonto v : ℚ) / 100

theorem foldl_max_eleccion (vs : List Nat) : ∀ a : Nat,
    vs.foldl (fun x b => if b > x then b else x) a = a ∨
    vs.foldl (fun x b => if b > x then b else x) a ∈ vs := by
  induction vs with
  | nil => intro a; left; rfl
  | cons v vs ih =>
    intro a
    simp only [List.foldl_cons]
    by_cases hv : v > a
    · rw [if_pos hv]
      rcases ih v with h | h
      · right; simp [h]
      · right; exact List.mem_cons_of_mem _ h
    · rw [if_neg hv]
      rcases ih a with h | h
      · left; exact h
      · right; exact List.mem_cons_of_mem _ h

theorem foldl_max_cota (vs : List Nat) : ∀ a : Nat,
    a ≤ vs.foldl (fun x b => if b > x then b else x) a ∧
    ∀ v ∈ vs, v ≤ vs.foldl (fun x b => if b > x then b else x) a := by
  induction vs with
  | nil => intro a; exact ⟨Nat.le_refl a, by simp⟩
  | cons v vs ih =>
    intro a
    simp only [List.foldl_cons]
    by_cases hv : v > a
    · rw [if_pos hv]
      refine ⟨Nat.le_of_lt (Nat.lt_of_lt_of_le hv (ih v).1), ?_⟩
      intro w hw
      rcases List.mem_cons.mp hw with h | h
      · rw [h]; exact (ih v).1
      · exact (ih v).2 w h
    · rw [if_neg hv]
      refine ⟨(ih a).1, ?_⟩
      intro w hw
      rcases List.mem_cons.mp hw with h | h
      · rw [h]; exact Nat.le_trans (Nat.le_of_not_lt hv) (ih a).1
      · exact (ih a).2 w h

/-- Claim C7: `extraer_monto_total` returns the maximum locale-parsed value
at or above the fixed floor of 100,000, and 0 when no value qualifies or
the input is not a string; on the spec's example it returns 2,400,000
(the 50,000 amount is filtered out by the floor). -/
theorem c7_extraer_monto_total :
    extraer_monto_total
      (.str "El monto total es $ 2.400.000,00 y el anticipo es $ 50.000,00") = 2400000 ∧
    (∀ n, extraer_monto_total (.nonStr n) = 0) ∧
    (∀ s : String, montosCalificados s = [] → extraer_monto_total (.str s) = 0) ∧
    (∀ s : String, montosCalificados s ≠ [] →
      centavosMonto (.str s) ∈ montosCalificados s ∧
      ∀ c ∈ montosCalificados s, (c : ℚ) / 100 ≤ extraer_monto_total (.str s)) := by
  refine ⟨?_, fun n => by simp [extraer_monto_total, centavosMonto], ?_, ?_⟩
  · have h : centavosMonto
        (.str "El monto total es $ 2.400.000,00 y el anticipo es $ 50.000,00") = 240000000 := by
      decide
    rw [extraer_monto_total, h]
    norm_num
  · intro s h
    have hc : centavosMonto (.str s) = 0 := by simp [centavosMonto, h]
    rw [extraer_monto_total, hc]
    norm_num
  · intro s h
    cases hm : montosCalificados s with
    | nil => exact absurd hm h
    | cons v vs =>
      have hcent : centavosMonto (.str s) = maximoLista (v :: vs) := by
        simp [centavosMonto, hm]
      refine ⟨?_, ?_⟩
      · rw [hcent, maximoLista]
        rcases foldl_max_eleccion vs v with h2 | h2
        · rw [h2]; exact List.mem_cons_self v vs
        · exact List.mem_cons_of_mem _ h2
      · intro c hc
        rw [extraer_monto_total, hcent]
        have hle : c ≤ maximoLista (v :: vs) := by
          rw [maximoLista]
          rcases List.mem_cons.mp hc with h2 | h2
          · rw [h2]; exact (foldl_max_cota vs v).1
          · exact (foldl_max_cota vs v).2 c h2
        have hq : (c : ℚ) ≤ (maximoLista (v :: vs) : ℚ) := Nat.cast_le.mpr hle
        gcongr

/-- Witness for C7: a text without qualifying amounts yields 0, and on the
spec's example the parsed 2,400,000.00 value (240,000,000 cents) is
dominated by the returned maximum. -/
theorem c7_extraer_monto_total_witness :
    extraer_monto_total (.str "texto sin montos") = 0 ∧
    ((240000000 : Nat) : ℚ) / 100 ≤ extraer_monto_total
      (.str "El monto total es $ 2.400.000,00 y el anticipo es $ 50.000,00") :=
  ⟨c7_extraer_monto_total.2.2.1 "texto sin montos" (by decide),
   (c7_extraer_monto_total.2.2.2
      "El monto total es $ 2.400.000,00 y el anticipo es $ 50.000,00"
      (by decide)).2 240000000 (by decide)⟩

theorem matchDecimales_forma (pre r t rest : List Char)
    (h : matchDecimales pre r = some (t, rest)) :
    ∃ e1 e2, t = pre ++ [',', e1, e2] ∧ e1.isDigit ∧ e2.isDigit := by
  unfold matchDecimales at h
  split at h
  · rename_i e1 e2 rs
    split at h
    · rename_i hd
      rcases Bool.and_eq_true_iff.mp hd with ⟨h1, h2⟩
      injection h with h3
      injection h3 with h4 h5
      exact ⟨e1, e2, h4.symm, h1, h2⟩
    · cases h
  · cases h

theorem matchNumeroCon_forma (ds r1 t rest : List Char)
    (h : matchNumeroCon ds r1 = some (t, rest)) :
    ∃ pre e1 e2, t = pre ++ [',', e1, e2] ∧ e1.isDigit ∧ e2.isDigit := by
  unfold matchNumeroCon at h
  split at h
  · cases h
  · split at h
    · rename_i res harm
      injection h with h2
      subst h2
      split at harm
      · split at harm
        · cases harm
        · rename_i gs r2 hne hpar
          rcases matchDecimales_forma _ _ _ _ harm with ⟨e1, e2, hf, h1, h2⟩
          exact ⟨ds ++ gs, e1, e2, by rw [hf, List.append_assoc], h1, h2⟩
      · cases harm
    · rcases matchDecimales_forma _ _ _ _ h with ⟨e1, e2, hf, h1, h2⟩
      exact ⟨ds, e1, e2, hf, h1, h2⟩

theorem buscaMontosAux_forma (fuel : Nat) : ∀ (l t : List Char),
    t ∈ buscaMontosAux fuel l →
    ∃ pre e1 e2, t = pre ++ [',', e1, e2] ∧ e1.isDigit ∧ e2.isDigit := by
  induction fuel with
  | zero => intro l t h; simp [buscaMontosAux] at h
  | succ fuel ih =>
    intro l t h
    cases l with
    | nil => simp [buscaMontosAux] at h
    | cons c cs =>
      rw [buscaMontosAux] at h
      split at h
      · rename_i tok rst hm
        rcases List.mem_cons.mp h with h2 | h2
        · subst h2
          exact matchNumeroCon_forma _ _ _ _ hm
        · exact ih _ _ h2
      · exact ih _ _ h

/-- Claim C10: the amount pattern only recognizes numeric tokens ending in a
decimal comma followed by exactly two digits; on texts whose figures lack
such a decimal part (e.g. "$ 2.400.000") the extractor returns 0 regardless
of the figure's magnitude. -/
theorem c10_extraer_monto_solo_con_decimales :
    (∀ (s : String) (t : List Char), t ∈ buscaMontos s.data →
      ∃ pre e1 e2, t = pre ++ [',', e1, e2] ∧ e1.isDigit ∧ e2.isDigit) ∧
    extraer_monto_total (.str "$ 2.400.000") = 0 ∧
    extraer_monto_total (.str "El monto total es $ 2.400.000 y nada mas") = 0 := by
  refine ⟨?_, ?_, ?_⟩
  · intro s t ht
    exact buscaMontosAux_forma _ _ t ht
  · have h : centavosMonto (.str "$ 2.400.000") = 0 := by decide
    rw [extraer_monto_total, h]
    norm_num
  · have h : centavosMonto (.str "El monto total es $ 2.400.000 y nada mas") = 0 := by
      decide
    rw [extraer_monto_total, h]
    norm_num

/-- Witness for C10: the token "2.400.000,00" found in the C7 example text
indeed carries a two-digit decimal tail. -/
theorem c10_extraer_monto_solo_con_decimales_witness :
    ∃ pre e1 e2, "2.400.000,00".data = pre ++ [',', e1, e2] ∧ e1.isDigit ∧ e2.isDigit :=
  c10_extraer_monto_solo_con_decimales.1
    "El monto total es $ 2.400.000,00 y el anticipo es $ 50.000,00"
    "2.400.000,00".data (by decide)

/-! ## buscar_empresas_fuzzy and procesar_licitaciones_con_progreso
(transformaciones_licitaciones.py lines 154-218)

The scorer `fuzz.token_set_ratio` and the selector `process.extractOne`
come from the fuzzywuzzy library, which is not part of src/; the scorer is
therefore modelled from the spec (section 4.3 and the glossary), the
selector from its documented behaviour (Python `max` keeps the first
maximal element of the choice sequence). -/

/-- Python `str.isalnum` for this data: ASCII alphanumerics, with non-ASCII
code points (accented letters here) also counting as alphanumeric. -/
def esAlfanumericoPy (c : Char) : Bool := c.isAlphanum || c.val ≥ 128

/-- Worker for `partirPalabras`; the accumulator holds the current word
reversed. -/
def partirAux (acumulada : List Char) : List Char → List String
  | [] => if acumulada.isEmpty then [] else [⟨acumulada.reverse⟩]
  | c :: cs =>
    if esEspacioPy c then
      if acumulada.isEmpty then partirAux [] cs
      else ⟨acumulada.reverse⟩ :: partirAux [] cs
    else partirAux (c :: acumulada) cs

/-- Python `str.split()` with no separator: split on whitespace runs,
discarding empty fragments. -/
def partirPalabras (s : String) : List String := partirAux [] s.data

/-- Modelled from the spec: fuzzywuzzy's `full_process` tokenization (the
fuzzy-matching library is not part of src/). Non-alphanumeric characters
become spaces, the text is lowercased, and the result is split into
tokens. -/
def tokensDe (s : String) : List String :=
  partirPalabras ⟨s.data.map (fun c => if esAlfanumericoPy c then minusculaChar c else ' ')⟩

/-- Modelled from the spec: the processed token set of a string, as a
duplicate-free list. -/
def conjuntoTokens (s : String) : List String := (tokensDe s).dedup

/-- Modelled from the spec: `fuzz.token_set_ratio`, the "0-100 token-set
similarity scale" of spec section 4.3, "robust to word order and
subset/superset token relationships" (spec glossary). The spec does not pin
the library's exact partial scores, so the model scores 100 exactly when
one processed token set contains the other (the library's subset/superset
behaviour), 0 when either side has no tokens (the library's guard for
empty processed strings), and a Dice-style token-overlap count otherwise. -/
def token_set_ratio (s1 s2 : String) : Nat :=
  let ts1 := conjuntoTokens s1
  let ts2 := conjuntoTokens s2
  if ts1.isEmpty || ts2.isEmpty then 0
  else if ts1.all (fun t => t ∈ ts2) || ts2.all (fun t => t ∈ ts1) then 100
  else (200 * (ts1.filter (fun t => t ∈ ts2)).length) / (ts1.length + ts2.length)

/-- One comparison step of `process.extractOne`: keep the incumbent unless
the new choice scores strictly higher (Python `max` keeps the first
maximal element). -/
def mejorPaso (q : String) (best : String × Nat) (c : String) : String × Nat :=
  if token_set_ratio q c > best.2 then (c, token_set_ratio q c) else best

/-- Embedding of `process.extractOne(segmento, choices, scorer=token_set_ratio)`:
the first choice attaining the maximal score, with its score; `none` on an
empty choice list (where the library call site would raise, an exception the
batch matcher turns into an empty result). -/
def extractOne (query : String) : List String → Option (String × Nat)
  | [] => none
  | c :: cs => some (cs.foldl (mejorPaso query) (c, token_set_ratio query c))

/-- Python `' '.join`. -/
def unirPalabras : List String → String
  | [] => ""
  | [s] => s
  | s :: rest => s ++ " " ++ unirPalabras rest

/-- The windows of one size over the word list:
`' '.join(palabras[i:i+ws])` for `i in range(len(palabras) - ws + 1)`
(truncated subtraction gives the same empty range as Python's `range` on a
non-positive bound). -/
def ventanasTam (palabras : List String) (ws : Nat) : List String :=
  (List.range (palabras.length + 1 - ws)).map
    (fun i => unirPalabras ((palabras.drop i).take ws))

/-- All windows visited by `buscar_empresas_fuzzy`: sizes 3, 4, 5 in loop
order. -/
def ventanas (palabras : List String) : List String :=
  ventanasTam palabras 3 ++ ventanasTam palabras 4 ++ ventanasTam palabras 5

/-- Processing of one window of `buscar_empresas_fuzzy`: add the single
best-scoring registry entry to the found set when it clears the threshold
(`empresas_encontradas.add(match)`); the Python set is modelled as a
duplicate-free list in insertion order. -/
def agregarVentana (empresas : List String) (threshold : Nat)
    (acc : List String) (segmento : String) : List String :=
  match extractOne segmento empresas with
  | none => acc
  | some (m, sc) =>
    if threshold ≤ sc then (if m ∈ acc then acc else acc ++ [m]) else acc

/-- Embedding of `buscar_empresas_fuzzy` (source lines 154-171): clean and
uppercase the text, return no matches when it is shorter than 10
characters, else slide 3-5 word windows and keep every best-scoring
registry name clearing the threshold. -/
def buscar_empresas_fuzzy (texto : String) (empresas : List String)
    (threshold : Nat) : List String :=
  let texto_limpio := mayusculas (limpiar_texto_licitacion texto)
  if texto_limpio.length < 10 then []
  else (ventanas (partirPalabras texto_limpio)).foldl (agregarVentana empresas threshold) []

theorem token_set_ratio_self (s : String) (h : tokensDe s ≠ []) :
    token_set_ratio s s = 100 := by
  have h2 : (conjuntoTokens s).isEmpty = false := by
    rw [conjuntoTokens]
    cases hdd : (tokensDe s).dedup with
    | nil => exact absurd ((List.dedup_eq_nil _).mp hdd) h
    | cons a l => rfl
  have hall : (((conjuntoTokens s).all fun t => decide (t ∈ conjuntoTokens s)) ||
      ((conjuntoTokens s).all fun t => decide (t ∈ conjuntoTokens s))) = true := by
    rw [Bool.or_self, List.all_eq_true]
    intro t ht
    simpa using ht
  simp only [token_set_ratio]
  rw [if_neg (by simp [h2]), if_pos hall]

theorem token_set_ratio_le_100 (s1 s2 : String) : token_set_ratio s1 s2 ≤ 100 := by
  simp only [token_set_ratio]
  by_cases h0 : ((conjuntoTokens s1).isEmpty || (conjuntoTokens s2).isEmpty) = true
  · simp [h0]
  · rw [if_neg h0]
    by_cases h1 : (((conjuntoTokens s1).all fun t => decide (t ∈ conjuntoTokens s2)) ||
        ((conjuntoTokens s2).all fun t => decide (t ∈ conjuntoTokens s1))) = true
    · simp [h1]
    · rw [if_neg h1]
      have hnd : ((conjuntoTokens s1).filter (fun t => decide (t ∈ conjuntoTokens s2))).Nodup :=
        List.Nodup.filter _ (List.nodup_dedup _)
      have hsub : ((conjuntoTokens s1).filter (fun t => decide (t ∈ conjuntoTokens s2)))
          ⊆ conjuntoTokens s2 := by
        intro x hx
        have := List.of_mem_filter hx
        simpa using this
      have hlen2 : ((conjuntoTokens s1).filter (fun t => decide (t ∈ conjuntoTokens s2))).length
          ≤ (conjuntoTokens s2).length :=
        (List.subperm_of_subset hnd hsub).length_le
      have hlen1 : ((conjuntoTokens s1).filter (fun t => decide (t ∈ conjuntoTokens s2))).length
          ≤ (conjuntoTokens s1).length := List.length_filter_le _ _
      have hpos : 0 < (conjuntoTokens s1).length + (conjuntoTokens s2).length := by
        have h0' := h0
        rw [Bool.or_eq_true, not_or] at h0'
        rcases h0' with ⟨ha, _⟩
        have hne : conjuntoTokens s1 ≠ [] := by
          intro hh
          exact ha (by simp [hh])
        have := List.length_pos.mpr hne
        omega
      have hmul : 200 * ((conjuntoTokens s1).filter (fun t => decide (t ∈ conjuntoTokens s2))).length
          ≤ 100 * ((conjuntoTokens s1).length + (conjuntoTokens s2).length) := by omega
      calc 200 * ((conjuntoTokens s1).filter (fun t => decide (t ∈ conjuntoTokens s2))).length
            / ((conjuntoTokens s1).length + (conjuntoTokens s2).length)
          ≤ 100 * ((conjuntoTokens s1).length + (conjuntoTokens s2).length)
            / ((conjuntoTokens s1).length + (conjuntoTokens s2).length) :=
            Nat.div_le_div_right hmul
        _ = 100 := Nat.mul_div_cancel 100 hpos

theorem foldl_mejor_fijo_100 (q : String) (cs : List String) : ∀ b : String × Nat,
    b.2 = 100 → (∀ c ∈ cs, token_set_ratio q c ≤ 100) →
    cs.foldl (mejorPaso q) b = b := by
  induction cs with
  | nil => intro b _ _; rfl
  | cons c cs ih =>
    intro b hb hle
    simp only [List.foldl_cons]
    have hstep : mejorPaso q b c = b := by
      rw [mejorPaso, if_neg]
      rw [hb]
      exact Nat.not_lt.mpr (hle c (List.mem_cons_self c cs))
    rw [hstep]
    exact ih b hb (fun d hd => hle d (List.mem_cons_of_mem _ hd))

theorem foldl_mejor_primero (q target : String) (cs : List String) : ∀ b : String × Nat,
    b.2 < 100 → target ∈ cs → token_set_ratio q target = 100 →
    (∀ c ∈ cs, token_set_ratio q c = 100 → c = target) →
    cs.foldl (mejorPaso q) b = (target, 100) := by
  induction cs with
  | nil => intro b _ hmem; cases hmem
  | cons c cs ih =>
    intro b hb hmem htar huniq
    simp only [List.foldl_cons]
    by_cases hc : c = target
    · subst hc
      have hstep : mejorPaso q b c = (c, 100) := by
        rw [mejorPaso, if_pos]
        · rw [htar]
        · rw [htar]; exact hb
      rw [hstep]
      exact foldl_mejor_fijo_100 q cs (c, 100) rfl
        (fun d _ => token_set_ratio_le_100 q d)
    · have hlt : token_set_ratio q c < 100 := by
        rcases Nat.lt_or_ge (token_set_ratio q c) 100 with h | h
        · exact h
        · have : token_set_ratio q c = 100 :=
            Nat.le_antisymm (token_set_ratio_le_100 q c) h
          exact absurd (huniq c (List.mem_cons_self c cs) this) hc
      have hmem' : target ∈ cs := by
        rcases List.mem_cons.mp hmem with h | h
        · exact absurd h.symm hc
        · exact h
      have hb' : (mejorPaso q b c).2 < 100 := by
        rw [mejorPaso]
        by_cases hgt : token_set_ratio q c > b.2
        · rw [if_pos hgt]; exact hlt
        · rw [if_neg hgt]; exact hb
      exact ih (mejorPaso q b c) hb' hmem' htar
        (fun d hd => huniq d (List.mem_cons_of_mem _ hd))

theorem extractOne_primero_100 (q target : String) (l : List String)
    (hmem : target ∈ l) (htar : token_set_ratio q target = 100)
    (huniq : ∀ c ∈ l, token_set_ratio q c = 100 → c = target) :
    extractOne q l = some (target, 100) := by
  cases l with
  | nil => cases hmem
  | cons c cs =>
    rw [extractOne]
    by_cases hc : c = target
    · subst hc
      rw [htar]
      rw [foldl_mejor_fijo_100 q cs (c, 100) rfl (fun d _ => token_set_ratio_le_100 q d)]
    · have hlt : token_set_ratio q c < 100 := by
        rcases Nat.lt_or_ge (token_set_ratio q c) 100 with h | h
        · exact h
        · exact absurd (huniq c (List.mem_cons_self c cs)
            (Nat.le_antisymm (token_set_ratio_le_100 q c) h)) hc
      have hmem' : target ∈ cs := by
        rcases List.mem_cons.mp hmem with h | h
        · exact absurd h.symm hc
        · exact h
      rw [foldl_mejor_primero q target cs (c, token_set_ratio q c) hlt hmem' htar
        (fun d hd => huniq d (List.mem_cons_of_mem _ hd))]

theorem foldl_mejor_invariante (q : String) (cs : List String) : ∀ b : String × Nat,
    (cs.foldl (mejorPaso q) b = b ∨
      ((cs.foldl (mejorPaso q) b).1 ∈ cs ∧
       (cs.foldl (mejorPaso q) b).2 = token_set_ratio q (cs.foldl (mejorPaso q) b).1)) ∧
    b.2 ≤ (cs.foldl (mejorPaso q) b).2 ∧
    (∀ d ∈ cs, token_set_ratio q d ≤ (cs.foldl (mejorPaso q) b).2) := by
  induction cs with
  | nil =>
    intro b
    exact ⟨Or.inl rfl, Nat.le_refl _, by simp⟩
  | cons c cs ih =>
    intro b
    simp only [List.foldl_cons]
    rcases ih (mejorPaso q b c) with ⟨hres, hle, hall⟩
    have hstep_le : b.2 ≤ (mejorPaso q b c).2 := by
      rw [mejorPaso]
      by_cases hgt : token_set_ratio q c > b.2
      · rw [if_pos hgt]; exact Nat.le_of_lt hgt
      · rw [if_neg hgt]
    have hstep_c : token_set_ratio q c ≤ (mejorPaso q b c).2 := by
      rw [mejorPaso]
      by_cases hgt : token_set_ratio q c > b.2
      · rw [if_pos hgt]
      · rw [if_neg hgt]; exact Nat.le_of_not_lt hgt
    refine ⟨?_, Nat.le_trans hstep_le hle, ?_⟩
    · rcases hres with hres | ⟨hmem, hval⟩
      · rw [hres]
        rw [mejorPaso]
        by_cases hgt : token_set_ratio q c > b.2
        · rw [if_pos hgt]
          right
          exact ⟨List.mem_cons_self c cs, rfl⟩
        · rw [if_neg hgt]
          left
          rfl
      · right
        exact ⟨List.mem_cons_of_mem _ hmem, hval⟩
    · intro d hd
      rcases List.mem_cons.mp hd with h | h
      · rw [h]
        exact Nat.le_trans hstep_c hle
      · exact hall d h

theorem extractOne_alcanza_100 (q target : String) (l : List String)
    (hmem : target ∈ l) (htar : token_set_ratio q target = 100) :
    ∃ m, extractOne q l = some (m, 100) ∧ token_set_ratio q m = 100 ∧ m ∈ l := by
  cases l with
  | nil => cases hmem
  | cons c cs =>
    rw [extractOne]
    rcases foldl_mejor_invariante q cs (c, token_set_ratio q c) with ⟨hres, hle, hall⟩
    set r := cs.foldl (mejorPaso q) (c, token_set_ratio q c) with hr
    have hr2 : r.2 = token_set_ratio q r.1 := by
      rcases hres with h | ⟨_, h⟩
      · rw [h]
      · exact h
    have hrmem : r.1 ∈ c :: cs := by
      rcases hres with h | ⟨h, _⟩
      · rw [h]
        exact List.mem_cons_self c cs
      · exact List.mem_cons_of_mem _ h
    have h100 : r.2 = 100 := by
      have hup : r.2 ≤ 100 := by
        rw [hr2]
        exact token_set_ratio_le_100 q r.1
      have hdown : 100 ≤ r.2 := by
        rcases List.mem_cons.mp hmem with h | h
        · calc 100 = token_set_ratio q c := by rw [← htar, h]
            _ = (c, token_set_ratio q c).2 := rfl
            _ ≤ r.2 := hle
        · calc 100 = token_set_ratio q target := htar.symm
            _ ≤ r.2 := hall target h
      exact Nat.le_antisymm hup hdown
    refine ⟨r.1, ?_, ?_, hrmem⟩
    · rw [← h100]
    · rw [← hr2, h100]

theorem mem_foldl_agregar (empresas : List String) (threshold : Nat)
    (ws : List String) : ∀ (acc : List String) (x : String), x ∈ acc →
    x ∈ ws.foldl (agregarVentana empresas threshold) acc := by
  induction ws with
  | nil => intro acc x hx; exact hx
  | cons w ws ih =>
    intro acc x hx
    simp only [List.foldl_cons]
    apply ih
    cases hEO : extractOne w empresas with
    | none => simp only [agregarVentana, hEO]; exact hx
    | some par =>
      rcases par with ⟨m, sc⟩
      simp only [agregarVentana, hEO]
      by_cases hth : threshold ≤ sc
      · rw [if_pos hth]
        by_cases hm : m ∈ acc
        · rw [if_pos hm]; exact hx
        · rw [if_neg hm]; exact List.mem_append_left _ hx
      · rw [if_neg hth]; exact hx

theorem agrega_ventana_mem (empresas : List String) (threshold : Nat)
    (ws : List String) : ∀ (acc : List String) (w m : String) (sc : Nat),
    w ∈ ws → extractOne w empresas = some (m, sc) → threshold ≤ sc →
    m ∈ ws.foldl (agregarVentana empresas threshold) acc := by
  induction ws with
  | nil => intro acc w m sc hw; cases hw
  | cons w0 ws ih =>
    intro acc w m sc hw hEO hth
    simp only [List.foldl_cons]
    rcases List.mem_cons.mp hw with h | h
    · subst h
      apply mem_foldl_agregar
      simp only [agregarVentana, hEO]
      rw [if_pos hth]
      by_cases hm : m ∈ acc
      · rw [if_pos hm]; exact hm
      · rw [if_neg hm]
        exact List.mem_append_right _ (List.mem_singleton.mpr rfl)
    · exact ih _ w m sc h hEO hth

/-- Claim C3, amended: if the cleaned upper-cased text is at least 10
characters long and contains an exact registry name as one of its 3-5 word
windows (and the name has at least one token), then for every threshold at
most 100 the windowed matcher scores that name at 100 against that window,
the result contains a registry entry scoring 100 against it, and it
contains the name itself whenever no other registry entry also scores 100
against that window (the matcher keeps only the first best-scoring entry
per window, so an earlier entry tying at 100 is returned instead). -/
theorem c3_buscar_empresas_fuzzy (texto : String) (empresas : List String)
    (threshold : Nat) (nombre : String)
    (hth : threshold ≤ 100)
    (hmem : nombre ∈ empresas)
    (hven : nombre ∈ ventanas (partirPalabras (mayusculas (limpiar_texto_licitacion texto))))
    (hlen : 10 ≤ (mayusculas (limpiar_texto_licitacion texto)).length)
    (htok : tokensDe nombre ≠ []) :
    token_set_ratio nombre nombre = 100 ∧
    (∃ m, m ∈ buscar_empresas_fuzzy texto empresas threshold ∧
      token_set_ratio nombre m = 100) ∧
    ((∀ m' ∈ empresas, token_set_ratio nombre m' = 100 → m' = nombre) →
      nombre ∈ buscar_empresas_fuzzy texto empresas threshold) := by
  have hself := token_set_ratio_self nombre htok
  have hbuscar : buscar_empresas_fuzzy texto empresas threshold =
      (ventanas (partirPalabras (mayusculas (limpiar_texto_licitacion texto)))).foldl
        (agregarVentana empresas threshold) [] := by
    rw [buscar_empresas_fuzzy]
    rw [if_neg (Nat.not_lt.mpr hlen)]
  refine ⟨hself, ?_, ?_⟩
  · rcases extractOne_alcanza_100 nombre nombre empresas hmem hself with ⟨m, hEO, hscore, hmem2⟩
    refine ⟨m, ?_, hscore⟩
    rw [hbuscar]
    exact agrega_ventana_mem empresas threshold _ [] nombre m 100 hven hEO
      (Nat.le_trans hth (Nat.le_refl 100))
  · intro huniq
    have hEO := extractOne_primero_100 nombre nombre empresas hmem hself huniq
    rw [hbuscar]
    exact agrega_ventana_mem empresas threshold _ [] nombre nombre 100 hven hEO
      (Nat.le_trans hth (Nat.le_refl 100))

/-- Witness for C3: on the text "AAA BBB CCC D" with the one-entry registry
["AAA BBB CCC"] and the default threshold 85, the name is matched. -/
theorem c3_buscar_empresas_fuzzy_witness :
    "AAA BBB CCC" ∈ buscar_empresas_fuzzy "AAA BBB CCC D" ["AAA BBB CCC"] 85 :=
  (c3_buscar_empresas_fuzzy "AAA BBB CCC D" ["AAA BBB CCC"] 85 "AAA BBB CCC"
    (by decide) (by decide) (by decide) (by decide) (by decide)).2.2 (by decide)

/-- Counterexample for C3 as stated: a text containing the exact registry
name "AAA BBB CCC" (word-aligned, text of 13 > 10 characters), with
threshold 100 <= 100, where that name is nevertheless NOT in the returned
set: the earlier registry entry "AAA BBB" also scores 100 on every window
whose token set contains the name's tokens (subset scoring), and the
matcher keeps only the first best-scoring entry per window. -/
theorem c3_buscar_empresas_fuzzy_contraejemplo :
    "AAA BBB CCC" ∈ (["AAA BBB", "AAA BBB CCC"] : List String) ∧
    "AAA BBB CCC" ∈ ventanas (partirPalabras (mayusculas
      (limpiar_texto_licitacion "AAA BBB CCC D"))) ∧
    10 ≤ (mayusculas (limpiar_texto_licitacion "AAA BBB CCC D")).length ∧
    token_set_ratio "AAA BBB CCC" "AAA BBB CCC" = 100 ∧
    buscar_empresas_fuzzy "AAA BBB CCC D" ["AAA BBB", "AAA BBB CCC"] 100 = ["AAA BBB"] ∧
    "AAA BBB CCC" ∉ buscar_empresas_fuzzy "AAA BBB CCC D" ["AAA BBB", "AAA BBB CCC"] 100 := by
  decide

/-- One row of the batch matcher's input DataFrame: `id_norma` and the
`texto_licitaciones` cell, which may be null/NaN (`pd.isna`). -/
structure FilaLicitacion where
  id_norma : Int
  texto : Option String
deriving DecidableEq

/-- Python dict lookup for `dict(zip(names, cuits))`: the last binding of a
key wins. -/
def dictGet (l : List (String × String)) (k : String) : Option String :=
  match l.reverse.find? (fun par => par.1 == k) with
  | some par => some par.2
  | none => none

/-- The fixed-size blocks of `procesar_licitaciones_con_progreso`:
`total_bloques = len(palabras) // bloque_size + 1`, block `b` spanning
`palabras[b*bloque_size:(b+1)*bloque_size]`. -/
def bloques (palabras : List String) (bsize : Nat) : List String :=
  (List.range (palabras.length / bsize + 1)).map
    (fun b => unirPalabras ((palabras.drop (b * bsize)).take bsize))

/-- Per-record work of the batch matcher (the body of the `try` block):
null/missing text yields no matches; otherwise the text is cleaned,
upper-cased and split, each block's single best registry match is kept when
it clears the threshold, and detections are deduplicated with falsy cuits
dropped (`if e["cuit"]`; the Python set of pairs is a duplicate-free
list here). An empty registry, which makes the library call raise and the
record's exception handler append an empty list, likewise yields []. -/
def procesarRegistro (mapa : List (String × String)) (nombres : List String)
    (threshold bsize : Nat) : Option String → List (String × String)
  | none => []
  | some t =>
    let palabras := partirPalabras (mayusculas (limpiar_texto_licitacion t))
    let detectadas : List (Option String × String) :=
      (bloques palabras bsize).foldl
        (fun acc seg =>
          match extractOne seg nombres with
          | none => acc
          | some (m, sc) =>
            if threshold ≤ sc then acc ++ [(dictGet mapa m, m)] else acc) []
    ((detectadas.filter (fun e =>
        match e.1 with
        | some cu => !(cu == "")
        | none => false)).map (fun e => (e.1.getD "", e.2))).dedup

/-- Embedding of `procesar_licitaciones_con_progreso` (source lines
173-218): one result list per input row, rows processed independently. The
registry rows are (company_name_normalized, cuit_empresa) pairs, zipped
into the lookup dict exactly as the source does. -/
def procesar_licitaciones_con_progreso (df : List FilaLicitacion)
    (df_empresas : List (String × String)) (threshold bsize : Nat) :
    List (List (String × String)) :=
  let nombres := df_empresas.map (fun par => par.1)
  df.map (fun fila => procesarRegistro df_empresas nombres threshold bsize fila.texto)

/-- Claim C4: the batch matcher yields exactly one (possibly empty) match
list per input record — no record stops the batch — and a record whose text
is null/missing yields the empty match list. (Exception handling per se is
Python control flow; in this total embedding it shows up as the per-record
function being total and the output length always equalling the input
length.) -/
theorem c4_procesar_licitaciones (df : List FilaLicitacion)
    (df_empresas : List (String × String)) (threshold bsize : Nat) :
    (procesar_licitaciones_con_progreso df df_empresas threshold bsize).length = df.length ∧
    (∀ (i : Nat) (fila : FilaLicitacion), df[i]? = some fila → fila.texto = none →
      (procesar_licitaciones_con_progreso df df_empresas threshold bsize)[i]? = some []) := by
  constructor
  · rw [procesar_licitaciones_con_progreso]
    exact List.length_map _ _
  · intro i fila hfila htexto
    rw [procesar_licitaciones_con_progreso]
    simp only [List.getElem?_map, hfila, Option.map_some']
    rw [htexto]
    rfl

/-- Witness for C4: a one-row batch with null text yields exactly one empty
match list. -/
theorem c4_procesar_licitaciones_witness :
    (procesar_licitaciones_con_progreso [⟨7, none⟩] [("ACME S.A.", "30-11111111-1")] 85 500)[0]?
      = some [] :=
  (c4_procesar_licitaciones [⟨7, none⟩] [("ACME S.A.", "30-11111111-1")] 85 500).2
    0 ⟨7, none⟩ rfl rfl

/-! ## Error-log reconciliation (utils_logs.py lines 19-107)

`gestionar_logs_de_errores_boletines` partitions the persisted pending rows
by `df["fecha"].isin(fechas_cubiertas)`; `gestionar_log_errores_normas`
partitions by `df["id_norma"].isin(id_normas_actuales)` on nullable ids.
Rows are modelled with their key and payload columns; the file-missing
early return (nothing to reconcile) is outside the partition being
claimed. -/

/-- A row of logs/log_errores_boletines.csv. -/
structure ErrorBoletin where
  fecha : String
  error : String
  tipo_error : String
deriving DecidableEq

/-- The resolved rows:
`df_errores_previos[df_errores_previos["fecha"].isin(fechas_cubiertas)]`. -/
def fechasResueltas (log : List ErrorBoletin) (cubiertas : List String) :
    List ErrorBoletin :=
  log.filter (fun e => e.fecha ∈ cubiertas)

/-- The still-pending rows (same filter negated, `~isin`). -/
def fechasNoResueltas (log : List ErrorBoletin) (cubiertas : List String) :
    List ErrorBoletin :=
  log.filter (fun e => ¬ e.fecha ∈ cubiertas)

/-- A row of logs/log_errores_normas.csv; `id_norma` is a nullable Int64
column (`astype("Int64")`). -/
structure ErrorNorma where
  id_norma : Option Int
  error : String
deriving DecidableEq

/-- `isin(id_normas_actuales)` on a nullable id: a null id is in no set. -/
def idEnActuales (e : ErrorNorma) (actuales : List Int) : Bool :=
  match e.id_norma with
  | some n => n ∈ actuales
  | none => false

/-- The resolved norma rows. -/
def erroresCorregidos (log : List ErrorNorma) (actuales : List Int) :
    List ErrorNorma :=
  log.filter (fun e => idEnActuales e actuales)

/-- The still-pending norma rows. -/
def erroresPendientes (log : List ErrorNorma) (actuales : List Int) :
    List ErrorNorma :=
  log.filter (fun e => !idEnActuales e actuales)

theorem claves_resueltas_toFinset (log : List ErrorBoletin) (cubiertas : List String) :
    ((fechasResueltas log cubiertas).map ErrorBoletin.fecha).toFinset
      = (log.map ErrorBoletin.fecha).toFinset.filter (fun k => k ∈ cubiertas) := by
  ext x
  simp only [List.mem_toFinset, List.mem_map, Finset.mem_filter, fechasResueltas,
    List.mem_filter]
  constructor
  · rintro ⟨e, ⟨he, hc⟩, rfl⟩
    exact ⟨⟨e, he, rfl⟩, by simpa using hc⟩
  · rintro ⟨⟨e, he, rfl⟩, hc⟩
    exact ⟨e, ⟨he, by simpa using hc⟩, rfl⟩

theorem claves_no_resueltas_toFinset (log : List ErrorBoletin) (cubiertas : List String) :
    ((fechasNoResueltas log cubiertas).map ErrorBoletin.fecha).toFinset
      = (log.map ErrorBoletin.fecha).toFinset.filter (fun k => ¬ k ∈ cubiertas) := by
  ext x
  simp only [List.mem_toFinset, List.mem_map, Finset.mem_filter, fechasNoResueltas,
    List.mem_filter]
  constructor
  · rintro ⟨e, ⟨he, hc⟩, rfl⟩
    exact ⟨⟨e, he, rfl⟩, by simpa using hc⟩
  · rintro ⟨⟨e, he, rfl⟩, hc⟩
    exact ⟨e, ⟨he, by simpa using hc⟩, rfl⟩

theorem claves_corregidas_toFinset (log : List ErrorNorma) (actuales : List Int) :
    ((erroresCorregidos log actuales).map ErrorNorma.id_norma).toFinset
      = (log.map ErrorNorma.id_norma).toFinset.filter
          (fun k => idEnActuales ⟨k, ""⟩ actuales) := by
  ext x
  simp only [List.mem_toFinset, List.mem_map, Finset.mem_filter, erroresCorregidos,
    List.mem_filter]
  constructor
  · rintro ⟨e, ⟨he, hc⟩, rfl⟩
    refine ⟨⟨e, he, rfl⟩, ?_⟩
    simpa [idEnActuales] using hc
  · rintro ⟨⟨e, he, rfl⟩, hc⟩
    refine ⟨e, ⟨he, ?_⟩, rfl⟩
    simpa [idEnActuales] using hc

theorem claves_pendientes_toFinset (log : List ErrorNorma) (actuales : List Int) :
    ((erroresPendientes log actuales).map ErrorNorma.id_norma).toFinset
      = (log.map ErrorNorma.id_norma).toFinset.filter
          (fun k => ¬ idEnActuales ⟨k, ""⟩ actuales = true) := by
  ext x
  simp only [List.mem_toFinset, List.mem_map, Finset.mem_filter, erroresPendientes,
    List.mem_filter]
  constructor
  · rintro ⟨e, ⟨he, hc⟩, rfl⟩
    refine ⟨⟨e, he, rfl⟩, ?_⟩
    simp only [Bool.not_eq_true'] at hc
    simpa [idEnActuales] using hc
  · rintro ⟨⟨e, he, rfl⟩, hc⟩
    refine ⟨e, ⟨he, ?_⟩, rfl⟩
    simp only [Bool.not_eq_true']
    simpa [idEnActuales] using hc

/-- Claim C1: reconciliation partitions the pending entries. For both the
date-keyed and the id-keyed variant: every persisted entry lands in exactly
one of the resolved (corrected) and still-pending outputs, no entry outside
the input appears, and the number of distinct resolved keys plus the number
of distinct still-pending keys equals the number of distinct pending keys
before (duplicates collapsed by key). -/
theorem c1_reconciliacion_logs (log : List ErrorBoletin) (cubiertas : List String)
    (logN : List ErrorNorma) (actuales : List Int) :
    (∀ e ∈ log, (e ∈ fechasResueltas log cubiertas ∧ e ∉ fechasNoResueltas log cubiertas) ∨
      (e ∈ fechasNoResueltas log cubiertas ∧ e ∉ fechasResueltas log cubiertas)) ∧
    (∀ e, e ∈ fechasResueltas log cubiertas ∨ e ∈ fechasNoResueltas log cubiertas →
      e ∈ log) ∧
    ((fechasResueltas log cubiertas).map ErrorBoletin.fecha).toFinset.card +
      ((fechasNoResueltas log cubiertas).map ErrorBoletin.fecha).toFinset.card
      = ((log.map ErrorBoletin.fecha).toFinset).card ∧
    (∀ e ∈ logN, (e ∈ erroresCorregidos logN actuales ∧ e ∉ erroresPendientes logN actuales) ∨
      (e ∈ erroresPendientes logN actuales ∧ e ∉ erroresCorregidos logN actuales)) ∧
    (∀ e, e ∈ erroresCorregidos logN actuales ∨ e ∈ erroresPendientes logN actuales →
      e ∈ logN) ∧
    ((erroresCorregidos logN actuales).map ErrorNorma.id_norma).toFinset.card +
      ((erroresPendientes logN actuales).map ErrorNorma.id_norma).toFinset.card
      = ((logN.map ErrorNorma.id_norma).toFinset).card := by
  refine ⟨?_, ?_, ?_, ?_, ?_, ?_⟩
  · intro e he
    by_cases hc : e.fecha ∈ cubiertas
    · left
      constructor
      · rw [fechasResueltas, List.mem_filter]
        exact ⟨he, by simpa using hc⟩
      · rw [fechasNoResueltas, List.mem_filter]
        rintro ⟨_, hcon⟩
        simp at hcon
        exact hcon hc
    · right
      constructor
      · rw [fechasNoResueltas, List.mem_filter]
        exact ⟨he, by simpa using hc⟩
      · rw [fechasResueltas, List.mem_filter]
        rintro ⟨_, hcon⟩
        simp at hcon
        exact hc hcon
  · intro e he
    rcases he with he | he
    · exact List.mem_of_mem_filter he
    · exact List.mem_of_mem_filter he
  · rw [claves_resueltas_toFinset, claves_no_resueltas_toFinset]
    exact Finset.filter_card_add_filter_neg_card_eq_card (fun k => k ∈ cubiertas)
  · intro e he
    by_cases hc : idEnActuales e actuales = true
    · left
      constructor
      · rw [erroresCorregidos, List.mem_filter]
        exact ⟨he, hc⟩
      · rw [erroresPendientes, List.mem_filter]
        rintro ⟨_, hcon⟩
        rw [Bool.not_eq_true'] at hcon
        rw [hc] at hcon
        cases hcon
    · right
      constructor
      · rw [erroresPendientes, List.mem_filter]
        refine ⟨he, ?_⟩
        rw [Bool.not_eq_true']
        exact Bool.not_eq_true _ ▸ hc
      · rw [erroresCorregidos, List.mem_filter]
        rintro ⟨_, hcon⟩
        exact hc hcon
  · intro e he
    rcases he with he | he
    · exact List.mem_of_mem_filter he
    · exact List.mem_of_mem_filter he
  · rw [claves_corregidas_toFinset, claves_pendientes_toFinset]
    exact Finset.filter_card_add_filter_neg_card_eq_card
      (fun k => idEnActuales ⟨k, ""⟩ actuales = true)

/-- Witness for C1 on a concrete pending log: the 2024-01-02 entry resolves
(its date is covered), the 2024-01-03 entry stays pending, and the
key counts add up 1 + 1 = 2; the id-keyed variant behaves alike. -/
theorem c1_reconciliacion_logs_witness :
    (⟨"02-01-2024", "HTTP 500", "http"⟩ ∈
        fechasResueltas [⟨"02-01-2024", "HTTP 500", "http"⟩,
          ⟨"03-01-2024", "HTTP 502", "http"⟩] ["02-01-2024"] ∧
      ⟨"02-01-2024", "HTTP 500", "http"⟩ ∉
        fechasNoResueltas [⟨"02-01-2024", "HTTP 500", "http"⟩,
          ⟨"03-01-2024", "HTTP 502", "http"⟩] ["02-01-2024"]) ∨
    (⟨"02-01-2024", "HTTP 500", "http"⟩ ∈
        fechasNoResueltas [⟨"02-01-2024", "HTTP 500", "http"⟩,
          ⟨"03-01-2024", "HTTP 502", "http"⟩] ["02-01-2024"] ∧
      ⟨"02-01-2024", "HTTP 500", "http"⟩ ∉
        fechasResueltas [⟨"02-01-2024", "HTTP 500", "http"⟩,
          ⟨"03-01-2024", "HTTP 502", "http"⟩] ["02-01-2024"]) :=
  (c1_reconciliacion_logs
    [⟨"02-01-2024", "HTTP 500", "http"⟩, ⟨"03-01-2024", "HTTP 502", "http"⟩]
    ["02-01-2024"] [⟨some 5, "timeout"⟩] [5]).1
    ⟨"02-01-2024", "HTTP 500", "http"⟩ (by decide)

/-! ## obtener_boletin (boletin_oficial_api.py lines 18-39) -/

/-- Outcome of one `requests.get` attempt, indexed by attempt number: a
response with its status code and whether `resp.json()` parses, or an
exception raised by the call itself (network errors, timeouts). -/
inductive HttpResp where
  | resp (code : Nat) (jsonOk : Bool) (body : String)
  | exc (msg : String)
deriving DecidableEq

/-- The typed result dict of `obtener_boletin`:
`{"data": ..., "fecha": ...}` or `{"error": ..., "fecha": ...}`. -/
inductive ApiResult where
  | data (body : String) (fecha : String)
  | error (msg : String) (fecha : String)
deriving DecidableEq

/-- The retry loop of `obtener_boletin` (source lines 22-39), from attempt
number `i` with `restantes` retries left (`restantes = retries - i`),
returning the result and the total number of attempts made. A 404 returns
the typed not-found immediately; `raise_for_status` raises for 4xx/5xx and
the handler retries 5xx while attempts remain (after a fixed sleep the
embedding does not model) and returns a typed "HTTP {code}" error
otherwise; other 4xx return the typed error immediately; any other
exception (including a JSON parse failure after a passing status) returns
its message immediately. -/
def bucleBoletin (fetch : Nat → HttpResp) (fecha : String) (i restantes : Nat) :
    ApiResult × Nat :=
  match fetch i with
  | .exc msg => (.error msg fecha, i + 1)
  | .resp code jsonOk body =>
    if code = 404 then (.error "404 Not Found" fecha, i + 1)
    else if 400 ≤ code ∧ code < 600 then
      if 500 ≤ code then
        match restantes with
        | r + 1 => bucleBoletin fetch fecha (i + 1) r
        | 0 => (.error ("HTTP " ++ toString code) fecha, i + 1)
      else (.error ("HTTP " ++ toString code) fecha, i + 1)
    else if jsonOk then (.data body fecha, i + 1)
    else (.error "invalid json" fecha, i + 1)
termination_by restantes

/-- Embedding of `obtener_boletin(fecha, retries, delay)`: run the attempt
loop from attempt 0 with `retries` retries available. -/
def obtener_boletin (fetch : Nat → HttpResp) (fecha : String) (retries : Nat) :
    ApiResult × Nat :=
  bucleBoletin fetch fecha 0 retries

theorem bucle_exc (fetch : Nat → HttpResp) (fecha : String) (i restantes : Nat)
    (msg : String) (hfr : fetch i = .exc msg) :
    bucleBoletin fetch fecha i restantes = (.error msg fecha, i + 1) := by
  rw [bucleBoletin.eq_def, hfr]

theorem bucle_404 (fetch : Nat → HttpResp) (fecha : String) (i restantes : Nat)
    (jsonOk : Bool) (body : String) (hfr : fetch i = .resp 404 jsonOk body) :
    bucleBoletin fetch fecha i restantes = (.error "404 Not Found" fecha, i + 1) := by
  rw [bucleBoletin.eq_def, hfr]
  rfl

theorem bucle_4xx (fetch : Nat → HttpResp) (fecha : String) (i restantes : Nat)
    (code : Nat) (jsonOk : Bool) (body : String) (hfr : fetch i = .resp code jsonOk body)
    (h4 : code ≠ 404) (h400 : 400 ≤ code) (h500 : code < 500) :
    bucleBoletin fetch fecha i restantes
      = (.error ("HTTP " ++ toString code) fecha, i + 1) := by
  rw [bucleBoletin.eq_def, hfr]
  simp only [if_neg h4]
  rw [if_pos ⟨h400, by omega⟩, if_neg (by omega : ¬ 500 ≤ code)]

theorem bucle_5xx_reintenta (fetch : Nat → HttpResp) (fecha : String) (i r : Nat)
    (code : Nat) (jsonOk : Bool) (body : String) (hfr : fetch i = .resp code jsonOk body)
    (h5 : 500 ≤ code) (h6 : code < 600) :
    bucleBoletin fetch fecha i (r + 1) = bucleBoletin fetch fecha (i + 1) r := by
  rw [bucleBoletin.eq_def, hfr]
  simp only [if_neg (by omega : ¬ code = 404)]
  rw [if_pos ⟨by omega, h6⟩, if_pos h5]

theorem bucle_5xx_agotado (fetch : Nat → HttpResp) (fecha : String) (i : Nat)
    (code : Nat) (jsonOk : Bool) (body : String) (hfr : fetch i = .resp code jsonOk body)
    (h5 : 500 ≤ code) (h6 : code < 600) :
    bucleBoletin fetch fecha i 0 = (.error ("HTTP " ++ toString code) fecha, i + 1) := by
  rw [bucleBoletin.eq_def, hfr]
  simp only [if_neg (by omega : ¬ code = 404)]
  rw [if_pos ⟨by omega, h6⟩, if_pos h5]

theorem bucle_otro (fetch : Nat → HttpResp) (fecha : String) (i restantes : Nat)
    (code : Nat) (jsonOk : Bool) (body : String) (hfr : fetch i = .resp code jsonOk body)
    (h4 : code ≠ 404) (hsc : ¬ (400 ≤ code ∧ code < 600)) :
    bucleBoletin fetch fecha i restantes
      = if jsonOk then (.data body fecha, i + 1) else (.error "invalid json" fecha, i + 1) := by
  rw [bucleBoletin.eq_def, hfr]
  simp only [if_neg h4, if_neg hsc]

theorem bucleBoletin_cuenta (fetch : Nat → HttpResp) (fecha : String) :
    ∀ restantes i : Nat,
      i + 1 ≤ (bucleBoletin fetch fecha i restantes).2 ∧
      (bucleBoletin fetch fecha i restantes).2 ≤ i + restantes + 1 := by
  intro restantes
  induction restantes with
  | zero =>
    intro i
    cases hfr : fetch i with
    | exc msg => rw [bucle_exc fetch fecha i 0 msg hfr]; omega
    | resp code jsonOk body =>
      by_cases h4 : code = 404
      · subst h4
        rw [bucle_404 fetch fecha i 0 jsonOk body hfr]; omega
      · by_cases hsc : 400 ≤ code ∧ code < 600
        · by_cases h5 : 500 ≤ code
          · rw [bucle_5xx_agotado fetch fecha i code jsonOk body hfr h5 hsc.2]; omega
          · rw [bucle_4xx fetch fecha i 0 code jsonOk body hfr h4 hsc.1 (by omega)]; omega
        · rw [bucle_otro fetch fecha i 0 code jsonOk body hfr h4 hsc]
          by_cases hj : jsonOk
          · rw [if_pos hj]; omega
          · rw [if_neg hj]; omega
  | succ r ih =>
    intro i
    cases hfr : fetch i with
    | exc msg => rw [bucle_exc fetch fecha i (r + 1) msg hfr]; omega
    | resp code jsonOk body =>
      by_cases h4 : code = 404
      · subst h4
        rw [bucle_404 fetch fecha i (r + 1) jsonOk body hfr]; omega
      · by_cases hsc : 400 ≤ code ∧ code < 600
        · by_cases h5 : 500 ≤ code
          · rw [bucle_5xx_reintenta fetch fecha i r code jsonOk body hfr h5 hsc.2]
            have := ih (i + 1)
            omega
          · rw [bucle_4xx fetch fecha i (r + 1) code jsonOk body hfr h4 hsc.1 (by omega)]
            omega
        · rw [bucle_otro fetch fecha i (r + 1) code jsonOk body hfr h4 hsc]
          by_cases hj : jsonOk
          · rw [if_pos hj]; omega
          · rw [if_neg hj]; omega

theorem bucleBoletin_reintentos_5xx (fetch : Nat → HttpResp) (fecha : String) :
    ∀ restantes i j : Nat, i ≤ j →
      j + 1 < (bucleBoletin fetch fecha i restantes).2 →
      ∃ code jsonOk body, fetch j = .resp code jsonOk body ∧ 500 ≤ code ∧ code < 600 := by
  intro restantes
  induction restantes with
  | zero =>
    intro i j hij hj
    exfalso
    cases hfr : fetch i with
    | exc msg => rw [bucle_exc fetch fecha i 0 msg hfr] at hj; omega
    | resp code jsonOk body =>
      by_cases h4 : code = 404
      · subst h4
        rw [bucle_404 fetch fecha i 0 jsonOk body hfr] at hj; omega
      · by_cases hsc : 400 ≤ code ∧ code < 600
        · by_cases h5 : 500 ≤ code
          · rw [bucle_5xx_agotado fetch fecha i code jsonOk body hfr h5 hsc.2] at hj; omega
          · rw [bucle_4xx fetch fecha i 0 code jsonOk body hfr h4 hsc.1 (by omega)] at hj
            omega
        · rw [bucle_otro fetch fecha i 0 code jsonOk body hfr h4 hsc] at hj
          by_cases hjok : jsonOk
          · rw [if_pos hjok] at hj; omega
          · rw [if_neg hjok] at hj; omega
  | succ r ih =>
    intro i j hij hj
    cases hfr : fetch i with
    | exc msg =>
      rw [bucle_exc fetch fecha i (r + 1) msg hfr] at hj; omega
    | resp code jsonOk body =>
      by_cases h4 : code = 404
      · subst h4
        rw [bucle_404 fetch fecha i (r + 1) jsonOk body hfr] at hj; omega
      · by_cases hsc : 400 ≤ code ∧ code < 600
        · by_cases h5 : 500 ≤ code
          · rw [bucle_5xx_reintenta fetch fecha i r code jsonOk body hfr h5 hsc.2] at hj
            rcases Nat.lt_or_ge i j with hlt | hge
            · exact ih (i + 1) j hlt hj
            · have heq : i = j := Nat.le_antisymm hij hge
              subst heq
              exact ⟨code, jsonOk, body, hfr, h5, hsc.2⟩
          · rw [bucle_4xx fetch fecha i (r + 1) code jsonOk body hfr h4 hsc.1 (by omega)] at hj
            omega
        · rw [bucle_otro fetch fecha i (r + 1) code jsonOk body hfr h4 hsc] at hj
          by_cases hjok : jsonOk
          · rw [if_pos hjok] at hj; omega
          · rw [if_neg hjok] at hj; omega

/-- Claim C9: the fetch makes at most `retries + 1` attempts (at most 2
retries at the source's default `retries = 2`), every non-final attempt was
a 5xx response, an HTTP 404 on the first attempt returns the typed
not-found result immediately (one attempt), other client errors return a
typed "HTTP {code}" error immediately, and an exception of the call
returns a typed error with its message immediately — no exception
propagates (the embedding is a total function into `ApiResult`). The fixed
inter-retry delay is real time and is not modelled. -/
theorem c9_obtener_boletin (fetch : Nat → HttpResp) (fecha : String) (retries : Nat) :
    (obtener_boletin fetch fecha retries).2 ≤ retries + 1 ∧
    (∀ j, j + 1 < (obtener_boletin fetch fecha retries).2 →
      ∃ code jsonOk body, fetch j = .resp code jsonOk body ∧ 500 ≤ code ∧ code < 600) ∧
    (∀ jsonOk body, fetch 0 = .resp 404 jsonOk body →
      obtener_boletin fetch fecha retries = (.error "404 Not Found" fecha, 1)) ∧
    (∀ code jsonOk body, fetch 0 = .resp code jsonOk body →
      400 ≤ code → code < 500 → code ≠ 404 →
      obtener_boletin fetch fecha retries = (.error ("HTTP " ++ toString code) fecha, 1)) ∧
    (∀ msg, fetch 0 = .exc msg →
      obtener_boletin fetch fecha retries = (.error msg fecha, 1)) := by
  refine ⟨?_, ?_, ?_, ?_, ?_⟩
  · have := (bucleBoletin_cuenta fetch fecha retries 0).2
    rw [obtener_boletin]
    omega
  · intro j hj
    exact bucleBoletin_reintentos_5xx fetch fecha retries 0 j (Nat.zero_le j) hj
  · intro jsonOk body h
    rw [obtener_boletin, bucle_404 fetch fecha 0 retries jsonOk body h]
  · intro code jsonOk body h h400 h500 h404
    rw [obtener_boletin, bucle_4xx fetch fecha 0 retries code jsonOk body h h404 h400 h500]
  · intro msg h
    rw [obtener_boletin, bucle_exc fetch fecha 0 retries msg h]

/-- Witness for C9: concrete 404, 403 and exception collaborators return
their typed results after exactly one attempt. -/
theorem c9_obtener_boletin_witness :
    obtener_boletin (fun _ => .resp 404 true "") "01-02-2024" 2
      = (.error "404 Not Found" "01-02-2024", 1) ∧
    obtener_boletin (fun _ => .resp 403 true "") "01-02-2024" 2
      = (.error ("HTTP " ++ toString 403) "01-02-2024", 1) ∧
    obtener_boletin (fun _ => .exc "timeout") "01-02-2024" 2
      = (.error "timeout" "01-02-2024", 1) :=
  ⟨(c9_obtener_boletin (fun _ => .resp 404 true "") "01-02-2024" 2).2.2.1 true "" rfl,
   (c9_obtener_boletin (fun _ => .resp 403 true "") "01-02-2024" 2).2.2.2.1 403 true "" rfl
     (by omega) (by omega) (by omega),
   (c9_obtener_boletin (fun _ => .exc "timeout") "01-02-2024" 2).2.2.2.2 "timeout" rfl⟩

/-! ## obtener_boletines_desde_fecha (boletin_oficial_api.py lines 56-135)

Dates are modelled as day numbers (the walk `fecha_inicio_dt` to `hoy` by
one day is then a walk over consecutive naturals); the fetch collaborator
maps a date to the outcome of `obtener_boletin` as the loop inspects it. -/

/-- The "boletin" payload inside a successful fetch, restricted to the
fields the loop reads: `numero` (may be missing), `fecha_publicacion` (may
be missing; defaulted to the query date), and the normas error marker
(`"errores" in normas_data`, carrying the message the source would print:
the first error, or its fallback text, already selected). -/
structure Boletin where
  numero : Option Int
  fechaPublicacion : Option Nat
  normasErrores : Option String
deriving DecidableEq

/-- What the loop observes for one date: a usable bulletin
(`result.get("data") and "boletin" in result["data"]`), data without a
usable bulletin (classified "Desconocido"), or an error result with its
message. -/
inductive FetchResult where
  | datos (b : Boletin)
  | sinBoletin
  | error (msg : String)
deriving DecidableEq

/-- One element of `resultados`:
`{"fecha_publicacion": fecha_pub_str, "datos": data}`. -/
structure Registro where
  fechaPublicacion : Nat
  datos : Boletin
deriving DecidableEq

/-- One element of `errores_boletines`. -/
structure ErrorFecha where
  fecha : Nat
  error : String
  tipo_error : String
deriving DecidableEq

/-- Is `pre` a prefix of `l` (Python `str.startswith`). -/
def esPrefijoDe : List Char → List Char → Bool
  | [], _ => true
  | _ :: _, [] => false
  | a :: as, b :: bs => a = b && esPrefijoDe as bs

/-- Does `l` contain `sub` as a contiguous substring (Python `in`). -/
def contieneSubcadena (sub : List Char) : List Char → Bool
  | [] => esPrefijoDe sub []
  | c :: cs => esPrefijoDe sub (c :: cs) || contieneSubcadena sub cs

/-- The message-content heuristic of the loop:
`"http" if "HTTP" in tipo_error or tipo_error.startswith("5") else "desconocido"`. -/
def tipoErrorDe (msg : String) : String :=
  if contieneSubcadena "HTTP".data msg.data || esPrefijoDe "5".data msg.data then "http"
  else "desconocido"

/-- The date walk `fecha_inicio_dt <= hoy`, one day at a time. -/
def rangoFechas (inicio hoy : Nat) : List Nat :=
  (List.range (hoy + 1 - inicio)).map (fun k => inicio + k)

/-- The body of the `while` loop of `obtener_boletines_desde_fecha`, over
the remaining dates, threading the session's `boletines_descargados` set:
skip covered dates without fetching; on a usable bulletin record a
"servidor_xml" failure if the normas carry an error marker, silently skip
bulletins whose number is already known (store or session), else append the
record and mark the number seen; on anything else record a classified
failure. Returns (resultados, errores_boletines). -/
def pasoBoletines (fetch : Nat → FetchResult) (existentes : List (Option Int))
    (cubiertas : List Nat) (fechas : List Nat) (descargados : List (Option Int)) :
    List Registro × List ErrorFecha :=
  match fechas with
  | [] => ([], [])
  | fecha :: resto =>
    if fecha ∈ cubiertas then pasoBoletines fetch existentes cubiertas resto descargados
    else
      match fetch fecha with
      | .datos b =>
        match b.normasErrores with
        | some mensaje =>
          let r1 := pasoBoletines fetch existentes cubiertas resto descargados
          (r1.1, ⟨fecha, mensaje, "servidor_xml"⟩ :: r1.2)
        | none =>
          if b.numero ∈ existentes ∨ b.numero ∈ descargados then
            pasoBoletines fetch existentes cubiertas resto descargados
          else
            let r1 := pasoBoletines fetch existentes cubiertas resto (b.numero :: descargados)
            (⟨b.fechaPublicacion.getD fecha, b⟩ :: r1.1, r1.2)
      | .sinBoletin =>
        let r1 := pasoBoletines fetch existentes cubiertas resto descargados
        (r1.1, ⟨fecha, "Desconocido", tipoErrorDe "Desconocido"⟩ :: r1.2)
      | .error msg =>
        let r1 := pasoBoletines fetch existentes cubiertas resto descargados
        (r1.1, ⟨fecha, msg, tipoErrorDe msg⟩ :: r1.2)

/-- Embedding of `obtener_boletines_desde_fecha` (source lines 56-135):
walk the dates from `inicio` to `hoy`, starting with an empty
session-seen set; the failure list is deduplicated before being persisted
(`drop_duplicates`). -/
def obtener_boletines_desde_fecha (fetch : Nat → FetchResult) (inicio hoy : Nat)
    (existentes : List (Option Int)) (cubiertas : List Nat) :
    List Registro × List ErrorFecha :=
  let par := pasoBoletines fetch existentes cubiertas (rangoFechas inicio hoy) []
  (par.1, par.2.dedup)

theorem paso_cubierta (fetch : Nat → FetchResult) (existentes : List (Option Int))
    (cubiertas : List Nat) (fecha : Nat) (resto : List Nat) (d : List (Option Int))
    (hc : fecha ∈ cubiertas) :
    pasoBoletines fetch existentes cubiertas (fecha :: resto) d
      = pasoBoletines fetch existentes cubiertas resto d := by
  simp only [pasoBoletines, if_pos hc]

theorem paso_normas_err (fetch : Nat → FetchResult) (existentes : List (Option Int))
    (cubiertas : List Nat) (fecha : Nat) (resto : List Nat) (d : List (Option Int))
    (b : Boletin) (mensaje : String)
    (hnc : fecha ∉ cubiertas) (hfb : fetch fecha = .datos b)
    (hne : b.normasErrores = some mensaje) :
    pasoBoletines fetch existentes cubiertas (fecha :: resto) d
      = ((pasoBoletines fetch existentes cubiertas resto d).1,
         ⟨fecha, mensaje, "servidor_xml"⟩ ::
           (pasoBoletines fetch existentes cubiertas resto d).2) := by
  simp only [pasoBoletines, if_neg hnc, hfb, hne]

theorem paso_duplicado (fetch : Nat → FetchResult) (existentes : List (Option Int))
    (cubiertas : List Nat) (fecha : Nat) (resto : List Nat) (d : List (Option Int))
    (b : Boletin)
    (hnc : fecha ∉ cubiertas) (hfb : fetch fecha = .datos b)
    (hne : b.normasErrores = none)
    (hdup : b.numero ∈ existentes ∨ b.numero ∈ d) :
    pasoBoletines fetch existentes cubiertas (fecha :: resto) d
      = pasoBoletines fetch existentes cubiertas resto d := by
  simp only [pasoBoletines, if_neg hnc, hfb, hne, if_pos hdup]

theorem paso_nuevo (fetch : Nat → FetchResult) (existentes : List (Option Int))
    (cubiertas : List Nat) (fecha : Nat) (resto : List Nat) (d : List (Option Int))
    (b : Boletin)
    (hnc : fecha ∉ cubiertas) (hfb : fetch fecha = .datos b)
    (hne : b.normasErrores = none)
    (hdup : ¬ (b.numero ∈ existentes ∨ b.numero ∈ d)) :
    pasoBoletines fetch existentes cubiertas (fecha :: resto) d
      = (⟨b.fechaPublicacion.getD fecha, b⟩ ::
           (pasoBoletines fetch existentes cubiertas resto (b.numero :: d)).1,
         (pasoBoletines fetch existentes cubiertas resto (b.numero :: d)).2) := by
  simp only [pasoBoletines, if_neg hnc, hfb, hne, if_neg hdup]

theorem paso_sin (fetch : Nat → FetchResult) (existentes : List (Option Int))
    (cubiertas : List Nat) (fecha : Nat) (resto : List Nat) (d : List (Option Int))
    (hnc : fecha ∉ cubiertas) (hfb : fetch fecha = .sinBoletin) :
    pasoBoletines fetch existentes cubiertas (fecha :: resto) d
      = ((pasoBoletines fetch existentes cubiertas resto d).1,
         ⟨fecha, "Desconocido", tipoErrorDe "Desconocido"⟩ ::
           (pasoBoletines fetch existentes cubiertas resto d).2) := by
  simp only [pasoBoletines, if_neg hnc, hfb]

theorem paso_error (fetch : Nat → FetchResult) (existentes : List (Option Int))
    (cubiertas : List Nat) (fecha : Nat) (resto : List Nat) (d : List (Option Int))
    (msg : String)
    (hnc : fecha ∉ cubiertas) (hfb : fetch fecha = .error msg) :
    pasoBoletines fetch existentes cubiertas (fecha :: resto) d
      = ((pasoBoletines fetch existentes cubiertas resto d).1,
         ⟨fecha, msg, tipoErrorDe msg⟩ ::
           (pasoBoletines fetch existentes cubiertas resto d).2) := by
  simp only [pasoBoletines, if_neg hnc, hfb]

theorem pasoBoletines_ids (fetch : Nat → FetchResult) (existentes : List (Option Int))
    (cubiertas : List Nat) :
    ∀ (fechas : List Nat) (d : List (Option Int)) (fecha : Nat) (b : Boletin),
      fecha ∈ fechas → fecha ∉ cubiertas → fetch fecha = .datos b →
      b.normasErrores = none →
      b.numero ∈ existentes ∨ b.numero ∈ d ∨
        b.numero ∈ (pasoBoletines fetch existentes cubiertas fechas d).1.map
          (fun r => r.datos.numero) := by
  intro fechas
  induction fechas with
  | nil => intro d fecha b hmem; cases hmem
  | cons f0 resto ih =>
    intro d fecha b hmem hnc hfb hne
    by_cases hc0 : f0 ∈ cubiertas
    · rw [paso_cubierta fetch existentes cubiertas f0 resto d hc0]
      have hmem' : fecha ∈ resto := by
        rcases List.mem_cons.mp hmem with h | h
        · subst h; exact absurd hc0 hnc
        · exact h
      exact ih d fecha b hmem' hnc hfb hne
    · cases hf0 : fetch f0 with
      | datos b0 =>
        cases hn0 : b0.normasErrores with
        | some mensaje =>
          rw [paso_normas_err fetch existentes cubiertas f0 resto d b0 mensaje hc0 hf0 hn0]
          rcases List.mem_cons.mp hmem with h | h
          · subst h
            rw [hfb] at hf0
            injection hf0 with hb
            rw [← hb] at hn0
            rw [hne] at hn0
            cases hn0
          · exact ih d fecha b h hnc hfb hne
        | none =>
          by_cases hdup : b0.numero ∈ existentes ∨ b0.numero ∈ d
          · rw [paso_duplicado fetch existentes cubiertas f0 resto d b0 hc0 hf0 hn0 hdup]
            rcases List.mem_cons.mp hmem with h | h
            · subst h
              rw [hfb] at hf0
              injection hf0 with hb
              rw [← hb] at hdup
              rcases hdup with h1 | h1
              · exact Or.inl h1
              · exact Or.inr (Or.inl h1)
            · exact ih d fecha b h hnc hfb hne
          · rw [paso_nuevo fetch existentes cubiertas f0 resto d b0 hc0 hf0 hn0 hdup]
            rcases List.mem_cons.mp hmem with h | h
            · subst h
              rw [hfb] at hf0
              injection hf0 with hb
              rw [hb]
              right; right
              simp
            · rcases ih (b0.numero :: d) fecha b h hnc hfb hne with h1 | h1 | h1
              · exact Or.inl h1
              · rcases List.mem_cons.mp h1 with h2 | h2
                · right; right
                  rw [h2]
                  simp
                · exact Or.inr (Or.inl h2)
              · right; right
                simp only [List.map_cons]
                exact List.mem_cons_of_mem _ h1
      | sinBoletin =>
        rw [paso_sin fetch existentes cubiertas f0 resto d hc0 hf0]
        rcases List.mem_cons.mp hmem with h | h
        · subst h
          rw [hfb] at hf0
          cases hf0
        · exact ih d fecha b h hnc hfb hne
      | error msg =>
        rw [paso_error fetch existentes cubiertas f0 resto d msg hc0 hf0]
        rcases List.mem_cons.mp hmem with h | h
        · subst h
          rw [hfb] at hf0
          cases hf0
        · exact ih d fecha b h hnc hfb hne

theorem pasoBoletines_vacio (fetch : Nat → FetchResult) (existentes2 : List (Option Int))
    (cubiertas : List Nat) :
    ∀ (fechas : List Nat) (d : List (Option Int)),
      (∀ fecha ∈ fechas, fecha ∉ cubiertas → ∀ b : Boletin, fetch fecha = .datos b →
        b.normasErrores = none → (b.numero ∈ existentes2 ∨ b.numero ∈ d)) →
      (pasoBoletines fetch existentes2 cubiertas fechas d).1 = [] := by
  intro fechas
  induction fechas with
  | nil => intro d _; rfl
  | cons f0 resto ih =>
    intro d hcond
    have hcond' : ∀ fecha ∈ resto, fecha ∉ cubiertas → ∀ b : Boletin,
        fetch fecha = .datos b → b.normasErrores = none →
        (b.numero ∈ existentes2 ∨ b.numero ∈ d) :=
      fun fecha hf => hcond fecha (List.mem_cons_of_mem _ hf)
    by_cases hc0 : f0 ∈ cubiertas
    · rw [paso_cubierta fetch existentes2 cubiertas f0 resto d hc0]
      exact ih d hcond'
    · cases hf0 : fetch f0 with
      | datos b0 =>
        cases hn0 : b0.normasErrores with
        | some mensaje =>
          rw [paso_normas_err fetch existentes2 cubiertas f0 resto d b0 mensaje hc0 hf0 hn0]
          exact ih d hcond'
        | none =>
          have hdup : b0.numero ∈ existentes2 ∨ b0.numero ∈ d :=
            hcond f0 (List.mem_cons_self f0 resto) hc0 b0 hf0 hn0
          rw [paso_duplicado fetch existentes2 cubiertas f0 resto d b0 hc0 hf0 hn0 hdup]
          exact ih d hcond'
      | sinBoletin =>
        rw [paso_sin fetch existentes2 cubiertas f0 resto d hc0 hf0]
        exact ih d hcond'
      | error msg =>
        rw [paso_error fetch existentes2 cubiertas f0 resto d msg hc0 hf0]
        exact ih d hcond'

/-- Claim C2, amended: after a run of the incremental fetch loop, a second
run over the same date range with the same covered-date set and an
existing-identifier set that additionally contains the identifiers fetched
by the first run (the state a completed pipeline run persists) yields zero
new results. With strictly identical, un-updated sets the second run
instead repeats the first run's results, see the counterexample. -/
theorem c2_segunda_corrida_vacia (fetch : Nat → FetchResult) (inicio hoy : Nat)
    (existentes : List (Option Int)) (cubiertas : List Nat) :
    (obtener_boletines_desde_fecha fetch inicio hoy
      (existentes ++
        (obtener_boletines_desde_fecha fetch inicio hoy existentes cubiertas).1.map
          (fun r => r.datos.numero))
      cubiertas).1 = [] := by
  show (pasoBoletines fetch
      (existentes ++
        (pasoBoletines fetch existentes cubiertas (rangoFechas inicio hoy) []).1.map
          (fun r => r.datos.numero))
      cubiertas (rangoFechas inicio hoy) []).1 = []
  apply pasoBoletines_vacio
  intro fecha hf hnc b hfb hne
  rcases pasoBoletines_ids fetch existentes cubiertas (rangoFechas inicio hoy) []
      fecha b hf hnc hfb hne with h | h | h
  · exact Or.inl (List.mem_append_left _ h)
  · cases h
  · exact Or.inl (List.mem_append_right _ h)

/-- A fetch collaborator that always returns a fresh-looking bulletin
number 1 with no publication date and no normas errors. -/
def fetchSiempreUno : Nat → FetchResult := fun _ => .datos ⟨some 1, none, none⟩

/-- Counterexample for C2 as stated: with strictly identical (un-updated)
existing-identifier and covered-date sets, a second run of the loop over
the same one-day range is the same function application and returns the
same single record again — not zero new results. -/
theorem c2_contraejemplo :
    (obtener_boletines_desde_fecha fetchSiempreUno 0 0 [] []).1
      = [⟨0, ⟨some 1, none, none⟩⟩] ∧
    (obtener_boletines_desde_fecha fetchSiempreUno 0 0 [] []).1 ≠ [] := by
  decide
